import Mathlib

/-!
Verification development for the sell-signal orchestration pipeline
(`orchestrator.py` / `sell_model.py`).

Shallow embedding conventions:
* Python floats are modelled as rationals (`ℚ`).
* A pandas one-or-more-row DataFrame is a `Frame := List Row`, a row being an
  association list from column name to `Value` (pandas `NaN` is `Value.nan`).
* MongoDB documents of the historical collection always carry an `_id`
  (a storage-engine guarantee), modelled by the `Doc` structure; documents of
  the suggested-trades collection are plain rows.
* External I/O (MongoDB reads, the XGBoost classifier) is modelled as pure
  state: the database is a value, the classifier a function `Row → ℚ` plus
  two flags for the load / predict failure modes the code catches.
-/

/-- A BSON / pandas scalar value. `nan` models pandas NaN (and BSON null). -/
inductive Value where
  | num (q : ℚ)
  | str (s : String)
  | time (t : Int)
  | oid (s : String)
  | nan
deriving DecidableEq, Repr

/-- One DataFrame row / one BSON document body: column name ↦ value. -/
abbrev Row := List (String × Value)

/-- A DataFrame: a list of rows. -/
abbrev Frame := List Row

/-- First-match column lookup in a row (pandas column access). -/
def lookupCol : Row → String → Option Value
  | [], _ => none
  | (k, v) :: rest, c => if k = c then some v else lookupCol rest c

/-- The column names of a row, in order. -/
def keys (r : Row) : List String := r.map Prod.fst

/-- Replace the value of every entry with key `k` (column overwrite). -/
def replaceCol : Row → String → Value → Row
  | [], _, _ => []
  | (k', v') :: rest, k, v =>
      if k' = k then (k, v) :: replaceCol rest k v
      else (k', v') :: replaceCol rest k v

/-- Pandas column assignment `df[k] = v`: overwrite if the column exists,
append it otherwise. -/
def setCol (r : Row) (k : String) (v : Value) : Row :=
  if k ∈ keys r then replaceCol r k v else r ++ [(k, v)]

/-- Pandas `df.rename(columns = ...)` restricted to a single column. -/
def renameCol (r : Row) (old new : String) : Row :=
  r.map (fun p => if p.1 = old then (new, p.2) else p)

/-- Pandas column projection `df[[cols]]`, keeping only the named columns
(in the given order) that are present in the row. -/
def restrictCols (cols : List String) (r : Row) : Row :=
  cols.filterMap (fun c => (lookupCol r c).map (fun v => (c, v)))

/-- Pandas `df.add_prefix(p)`: prefix every column name. -/
def prefixRow (p : String) (r : Row) : Row :=
  r.map (fun q => (p ++ q.1, q.2))

/-- The columns of a frame. Only membership is ever used, so the list is not
deduplicated (pandas `df.columns` is the set union of the rows' keys). -/
def frameCols (f : Frame) : List String := (f.map keys).flatten

/-- Pandas `pd.concat(axis=1)` after `reset_index`: align rows positionally
and append columns side by side; rows present on one side only keep that
side's columns. -/
def concatRows : Frame → Frame → Frame
  | [], B => B
  | l :: ls, [] => l :: concatRows ls []
  | l :: ls, r :: rs => (l ++ r) :: concatRows ls rs

/-- Validity of a `bson.ObjectId` string argument: 24 hexadecimal
characters. `ObjectId(buyid)` raises on anything else. -/
def isValidObjectId (s : String) : Bool :=
  s.length = 24 && s.toList.all (fun c =>
    c.isDigit || ('a' ≤ c && c ≤ 'f') || ('A' ≤ c && c ≤ 'F'))

/-- A document of the historical (market-snapshot) collection. MongoDB
guarantees every stored document has an `_id`; the remaining fields
(symbol, timestamp, indicators) live in `fields`. -/
structure Doc where
  id : String
  fields : Row
deriving DecidableEq, Repr

/-- Conversion of a MongoDB document into a DataFrame row
(`pd.DataFrame(list(cursor))`): the `_id` becomes a column. -/
def docToRow (d : Doc) : Row := ("_id", Value.oid d.id) :: d.fields

/-- The sort key used by `find(...).sort("timestamp", -1)`:
documents without a (datetime) timestamp sort below all others. -/
def tsOf (d : Doc) : Option Int :=
  match lookupCol d.fields "timestamp" with
  | some (Value.time t) => some t
  | _ => none

/-- Strict order on optional timestamps with `none` smallest. -/
def tsLt (a b : Option Int) : Bool :=
  match a, b with
  | none, none => false
  | none, some _ => true
  | some _, none => false
  | some x, some y => decide (x < y)

/-- The single most-recent snapshot for a symbol
(`find({"symbol": symbol}).sort("timestamp", -1).limit(1)`). -/
def latestDoc (hist : List Doc) (sym : String) : Option Doc :=
  (hist.filter (fun d => lookupCol d.fields "symbol" = some (Value.str sym))).foldl
    (fun acc d =>
      match acc with
      | none => some d
      | some best => if tsLt (tsOf best) (tsOf d) then some d else some best)
    none

/-- An active trade as fetched by
`find({}, {"symbol": 1, "buyid": 1, "_id": 0})`. -/
structure Trade where
  symbol : String
  buyid : Option String
deriving DecidableEq, Repr

namespace SellModel

/-- Bought-asset feature names expected by the Sell model
(`sell_model.py`, `BOUGHT_COLUMNS`). -/
def BOUGHT_COLUMNS : List String := [
  "open", "high", "low", "close", "volume",
  "macd", "macd_signal", "macd_histogram",
  "rsi", "rsi_sma",
  "ema_100", "ema_200",
  "atr", "ema_ratio",
  "macd_histogram_x_atr", "buy_sell_pressure_x_ema_ratio",
  "buy_sell_pressure", "relative_volume",
  "quote_volume_ratio", "rsi_x_relative_volume"
]

/-- Model feature list for the bought side (`buy_` prefix). -/
def BUY_COLUMNS : List String := BOUGHT_COLUMNS.map (fun c => "buy_" ++ c)

/-- Model feature list for the latest/current side (`sell_` prefix). -/
def SELL_COLUMNS : List String := BOUGHT_COLUMNS.map (fun c => "sell_" ++ c)

/-- Full expected feature vector of the classifier. -/
def EXPECTED_FEATURES : List String := BUY_COLUMNS ++ SELL_COLUMNS

/-- The columns `run` may return
(`columns_to_return`, including the optional `sell_close`). -/
def RETURNABLE_COLUMNS : List String :=
  ["symbol", "timestamp", "confidence_score", "open", "high", "low", "volume",
   "sell_close"]

/-- The externally supplied XGBoost classifier, as a black box: `score` maps
the restricted feature row to a confidence, `loadOk` / `predictOk` model the
two exception sites `run` catches (model load, prediction). -/
structure Model where
  loadOk : Bool
  predictOk : Bool
  score : Row → ℚ

/-- Lines 52-54 of `sell_model.py`: for every bought column present in the
frame, copy it under the `buy_` prefix. -/
def addBuyCols (cols : List String) (r : Row) : Row :=
  BOUGHT_COLUMNS.foldl
    (fun acc c =>
      if c ∈ cols then setCol acc ("buy_" ++ c) ((lookupCol acc c).getD Value.nan)
      else acc)
    r

/-- The input frame after the `buy_` copies. -/
def dfWithBuy (data : Frame) : Frame := data.map (addBuyCols (frameCols data))

/-- Expected features present in the (buy-augmented) input
(`available_features`). -/
def availableFeatures (data : Frame) : List String :=
  EXPECTED_FEATURES.filter (fun c => c ∈ frameCols (dfWithBuy data))

/-- Expected features absent from the (buy-augmented) input; this is the set
logged by the `Missing expected columns` warning. -/
def missingFeatures (data : Frame) : List String :=
  EXPECTED_FEATURES.filter (fun c => ¬ c ∈ frameCols (dfWithBuy data))

/-- Shallow embedding of `sell_model.run`. `modelFileOk` models
`model_file and os.path.exists(model_file)`. Returns the
`suggested_trades` frame on success, the error message otherwise. -/
def run (m : Model) (modelFileOk : Bool) (data : Frame) : Except String Frame :=
  if data = [] then .error "No input data"
  else if modelFileOk = false then .error "model_file missing"
  else if m.loadOk = false then .error "Failed to load model"
  else
    let df1 := dfWithBuy data
    let available := availableFeatures data
    if m.predictOk = false then .error "Prediction failed"
    else
      let df2 := df1.map (fun r =>
        setCol r "confidence_score" (Value.num (m.score (restrictCols available r))))
      let colsRet1 :=
        if "sell_close" ∈ frameCols df2 then RETURNABLE_COLUMNS
        else ["symbol", "timestamp", "confidence_score", "open", "high", "low", "volume"]
      let colsRet := colsRet1.filter (fun c => c ∈ frameCols df2)
      .ok (df2.map (restrictCols colsRet))

end SellModel

namespace Orchestrator

/-- Indicator columns retained from the bought row
(`orchestrator.py`, `BOUGHT_COLUMNS`). -/
def BOUGHT_COLUMNS : List String := [
  "open", "high", "low", "close", "volume", "quote_asset_volume",
  "number_of_trades", "taker_buy_base", "taker_buy_quote", "macd",
  "macd_signal", "macd_histogram", "rsi", "rsi_sma", "ema_100",
  "ema_200", "atr", "relative_volume", "quote_volume_ratio",
  "buy_sell_pressure", "ema_ratio", "rsi_x_relative_volume",
  "macd_histogram_x_atr", "buy_sell_pressure_x_ema_ratio"
]

/-- Indicator columns retained from the latest row (`SELL_COLUMNS`). -/
def SELL_COLUMNS : List String := BOUGHT_COLUMNS.map (fun c => "sell_" ++ c)

/-- Minimum sell score threshold (`MIN_SELL_SCORE = 0.7`). -/
def MIN_SELL_SCORE : ℚ := 7 / 10

/-- Columns persisted to the suggested-trades collection
(`columns_to_save`). -/
def COLUMNS_TO_SAVE : List String :=
  ["symbol", "trade_type", "sell_score", "buyid", "sellid"]

/-- The threshold predicate of line 146:
`df_suggested["sell_score"] >= MIN_SELL_SCORE`. A missing or non-numeric
(NaN) score compares as `False`, as in pandas. -/
def passesThreshold (r : Row) : Bool :=
  match lookupCol r "sell_score" with
  | some (Value.num q) => decide (MIN_SELL_SCORE ≤ q)
  | _ => false

/-- The threshold filter applied before saving. -/
def filterByScore (f : Frame) : Frame := f.filter passesThreshold

/-- Nullness of the confidence column in one row
(`df["confidence_score"].isnull()`). -/
def isNullConf (r : Row) : Bool :=
  match lookupCol r "confidence_score" with
  | some Value.nan => true
  | none => true
  | _ => false

/-- Feature Pairing (lines 79-119): resolve the buyid, fetch the bought row
and the latest row, prefix and filter columns, and concatenate. Returns
`(buyid, sellid, combined frame)` or a skip. A skip is the log line of that
failure, split as (interpolated identifier, static message): every site
interpolates the trade's symbol except line 97, `No bought row found for
buyid`, which interpolates the buyid. -/
def pairTrade (hist : List Doc) (tr : Trade) :
    Except (String × String) (String × String × Frame) :=
  match tr.buyid with
  | none => .error (tr.symbol, "missing buyid. Skipping.")
  | some b =>
    if b = "" then .error (tr.symbol, "missing buyid. Skipping.")
    else if isValidObjectId b = false then
      .error (tr.symbol, "Invalid buyid format. Skipping trade.")
    else
      let dfBought := (hist.filter (fun d => d.id = b)).map docToRow
      if dfBought = [] then .error (b, "No bought row found for buyid")
      else
        match latestDoc hist tr.symbol with
        | none => .error (tr.symbol, "No latest row found for symbol")
        | some dl =>
          let latestPrefixed := prefixRow "sell_" (docToRow dl)
          let boughtCols := BOUGHT_COLUMNS.filter (fun c => c ∈ frameCols dfBought)
          let dfBoughtF := dfBought.map (restrictCols boughtCols)
          let sellCols := SELL_COLUMNS.filter (fun c => c ∈ keys latestPrefixed)
          .ok (b, dl.id, concatRows dfBoughtF [restrictCols sellCols latestPrefixed])

/-- Lines 133-135: attach the constant trade_type and the two snapshot
references to every suggested row. -/
def attachIds (b sellid : String) (dfSuggested : Frame) : Frame :=
  dfSuggested.map (fun r =>
    setCol (setCol (setCol r "trade_type" (Value.str "SELL"))
      "buyid" (Value.oid b)) "sellid" (Value.oid sellid))

/-- Line 143: rename confidence_score to sell_score in every row. -/
def renameScore (f : Frame) : Frame :=
  f.map (fun r => renameCol r "confidence_score" "sell_score")

/-- Postprocessing of the model result (lines 127-157): attach
trade_type / buyid / sellid, require a non-null confidence score, rename it
to sell_score, filter by threshold, ensure the symbol column and project to
the columns to save. -/
def postModel (sym b sellid : String) (dfSuggested : Frame) :
    Except (String × String) (List Row) :=
  if dfSuggested = [] then
    .error (sym, "Sell model returned no suggested trades.")
  else
    let withIds := attachIds b sellid dfSuggested
    if ¬ "confidence_score" ∈ frameCols withIds ∨ withIds.all isNullConf = true then
      .error (sym, "No confidence_score returned. Skipping save.")
    else
      let kept := filterByScore (renameScore withIds)
      if kept = [] then
        .error (sym, "No sell predictions above threshold. Skipping save.")
      else
        let withSym :=
          if "symbol" ∈ frameCols kept then kept
          else kept.map (fun r => setCol r "symbol" (Value.str sym))
        let saveCols := COLUMNS_TO_SAVE.filter (fun c => c ∈ frameCols withSym)
        .ok (withSym.map (restrictCols saveCols))

/-- Full per-trade processing: pairing, scoring, postprocessing. An error is
the skip logged for that trade, `(symbol, reason)`. -/
def processTrade (m : SellModel.Model) (modelFileOk : Bool) (hist : List Doc)
    (tr : Trade) : Except (String × String) (List Row) :=
  match pairTrade hist tr with
  | .error e => .error e
  | .ok (b, sellid, combined) =>
    match SellModel.run m modelFileOk combined with
    | .error msg => .error (tr.symbol, "Sell model prediction failed: " ++ msg)
    | .ok dfSuggested => postModel tr.symbol b sellid dfSuggested

/-- The confidence scores one run computes for a single trade: none when
pairing skips the trade, otherwise one score per row of the buy-augmented
paired frame, each taken on the available features only — exactly the
values `run` assigns to `confidence_score` for this trade's batch. -/
def tradeScores (m : SellModel.Model) (hist : List Doc) (tr : Trade) :
    List ℚ :=
  match pairTrade hist tr with
  | .error _ => []
  | .ok (_, _, combined) =>
      (SellModel.dfWithBuy combined).map
        (fun r => m.score (restrictCols (SellModel.availableFeatures combined) r))

/-- Application of a `$set` document to an existing document: every field of
`fields` overwrites (or is added to) `d`. -/
def setCols (d : Row) (fields : Row) : Row :=
  fields.foldl (fun acc p => setCol acc p.1 p.2) d

/-- Whether a stored document matches the upsert filter
`{"symbol": sv, "trade_type": tv}`. -/
def matchesKey (d : Row) (sv tv : Value) : Bool :=
  decide (lookupCol d "symbol" = some sv ∧ lookupCol d "trade_type" = some tv)

/-- MongoDB `update_one(filter, {"$set": fields}, upsert=True)`: overwrite
the fields of the first matching document in place, or insert a new document
built from the filter equality fields plus `fields`. -/
def updateOneUpsert : List Row → Value → Value → Row → List Row
  | [], sv, tv, fields => [setCols [("symbol", sv), ("trade_type", tv)] fields]
  | d :: ds, sv, tv, fields =>
    if matchesKey d sv tv then setCols d fields :: ds
    else d :: updateOneUpsert ds sv tv fields

/-- One iteration of the save loop (lines 161-167): build the filter from
the record's symbol and trade_type and upsert the record plus a fresh
`created_at`. `none` models the `KeyError` a record without those fields
would raise (caught by the surrounding `try`). -/
def persistRecord (coll : List Row) (rec : Row) (now : Int) : Option (List Row) :=
  match lookupCol rec "symbol", lookupCol rec "trade_type" with
  | some sv, some tv =>
      some (updateOneUpsert coll sv tv (rec ++ [("created_at", Value.time now)]))
  | _, _ => none

/-- The save loop over all records of one trade; an exception aborts the
remaining records of this trade only, keeping earlier upserts. -/
def saveRecords (coll : List Row) (recs : List Row) (now : Int) : List Row :=
  match recs with
  | [] => coll
  | r :: rs =>
    match persistRecord coll r now with
    | some c => saveRecords c rs now
    | none => coll

/-- The effect of one trade on the suggested-trades collection: skips write
nothing, successful processing upserts each produced record. -/
def applyTrade (m : SellModel.Model) (modelFileOk : Bool) (hist : List Doc)
    (now : Int) (coll : List Row) (tr : Trade) : List Row :=
  match processTrade m modelFileOk hist tr with
  | .error _ => coll
  | .ok recs => saveRecords coll recs now

/-- The per-trade loop (lines 77-170): returns the final collection and the
list of per-trade skips, each logged as `(symbol, reason)`. -/
def runTrades (m : SellModel.Model) (modelFileOk : Bool) (hist : List Doc)
    (now : Int) : List Row → List Trade → List Row × List (String × String)
  | coll, [] => (coll, [])
  | coll, t :: ts =>
    match processTrade m modelFileOk hist t with
    | .error e =>
        let p := runTrades m modelFileOk hist now coll ts
        (p.1, e :: p.2)
    | .ok recs => runTrades m modelFileOk hist now (saveRecords coll recs now) ts

/-- Environment and startup state of one run (lines 27-68): the `.env`
file, the six environment variables, existence of the model file, and
success of the MongoDB connection block (client, collections, unique-index
creation). -/
structure Env where
  dotenvExists : Bool
  mongoConnStr : Option String
  mongoDbName : Option String
  activeTradesTable : Option String
  mongoCollection : Option String
  suggestedCollection : Option String
  sellModelFile : Option String
  modelFileExists : Bool
  connectOk : Bool

/-- The database state visible to one run. -/
structure World where
  activeTrades : List Trade
  historical : List Doc
  suggested : List Row
deriving DecidableEq

/-- Python falsiness of an optional environment string
(`not os.getenv(...)`): unset or empty. -/
def falsy : Option String → Bool
  | none => true
  | some s => decide (s = "")

/-- Shallow embedding of `orchestrator_stage2_sell`: returns the final world
and the log of the run (startup errors, per-trade skips, completion). Every
startup failure path logs one line and returns with the world untouched. -/
def orchestrator_stage2_sell (env : Env) (m : SellModel.Model) (now : Int)
    (w : World) : World × List String :=
  if env.dotenvExists = false then (w, [".env file not found"])
  else if falsy env.mongoConnStr || falsy env.mongoDbName || falsy env.sellModelFile then
    (w, ["Missing required environment variables: MONGO_CONN_STR, MONGO_DB_NAME, or SELL_MODEL_FILE"])
  else if env.modelFileExists = false then (w, ["Sell model file not found"])
  else if env.connectOk = false then (w, ["Error connecting to MongoDB"])
  else if w.activeTrades = [] then (w, ["No active trades found."])
  else
    let r := runTrades m env.modelFileExists w.historical now w.suggested w.activeTrades
    ({ w with suggested := r.1 },
      r.2.map (fun e => e.1 ++ ": " ++ e.2) ++
        ["Stage 2 Sell orchestrator completed successfully."])

/-- The single error line a failed startup logs, by failure case. -/
def startupMsg (env : Env) : String :=
  if env.dotenvExists = false then ".env file not found"
  else if falsy env.mongoConnStr || falsy env.mongoDbName || falsy env.sellModelFile then
    "Missing required environment variables: MONGO_CONN_STR, MONGO_DB_NAME, or SELL_MODEL_FILE"
  else if env.modelFileExists = false then "Sell model file not found"
  else "Error connecting to MongoDB"

/-- Startup failure (claim C10): missing `.env`, a falsy required variable,
a missing model file, or a failing MongoDB connection block. -/
def startupFails (env : Env) : Prop :=
  env.dotenvExists = false ∨ falsy env.mongoConnStr = true ∨
    falsy env.mongoDbName = true ∨ falsy env.sellModelFile = true ∨
    env.modelFileExists = false ∨ env.connectOk = false

instance (env : Env) : Decidable (startupFails env) := by
  unfold startupFails; infer_instance

/-- Everything one run depends on besides the suggested-trades collection:
configuration, classifier, wall clock, active trades and snapshots. -/
structure RunParams where
  env : Env
  model : SellModel.Model
  now : Int
  trades : List Trade
  hist : List Doc

/-- A sequence of full orchestrator runs, threading only the
suggested-trades collection (the externally owned state it writes). -/
def runsFold (sugg : List Row) (ps : List RunParams) : List Row :=
  ps.foldl
    (fun s p =>
      ((orchestrator_stage2_sell p.env p.model p.now ⟨p.trades, p.hist, s⟩).1).suggested)
    sugg

/-- The (symbol, trade_type) key of each stored suggested-signal document. -/
def keysOf (coll : List Row) : List (Option Value × Option Value) :=
  coll.map (fun d => (lookupCol d "symbol", lookupCol d "trade_type"))

/-- The storage-layer uniqueness invariant: at most one document per
(symbol, trade_type) pair. -/
def UniqueKeys (coll : List Row) : Prop := (keysOf coll).Nodup

instance (coll : List Row) : Decidable (UniqueKeys coll) := by
  unfold UniqueKeys; infer_instance

end Orchestrator

/-- A concrete classifier used for witnesses: loads and predicts, scoring
every row at 1. -/
def testModel : SellModel.Model := ⟨true, true, fun _ => 1⟩

/-- A concrete snapshot document for witnesses. -/
def snapA : Doc :=
  ⟨"aaaaaaaaaaaaaaaaaaaaaaaa",
   [("symbol", Value.str "BTCUSD"), ("timestamp", Value.time 1),
    ("open", Value.num 10), ("close", Value.num 11)]⟩

/-- A later snapshot for the same symbol. -/
def snapB : Doc :=
  ⟨"bbbbbbbbbbbbbbbbbbbbbbbb",
   [("symbol", Value.str "BTCUSD"), ("timestamp", Value.time 2),
    ("open", Value.num 12), ("close", Value.num 13)]⟩

/-- A concrete active trade whose buyid resolves to `snapA`. -/
def tradeA : Trade := ⟨"BTCUSD", some "aaaaaaaaaaaaaaaaaaaaaaaa"⟩

/-- A concrete trade with no buyid (fails at the pairing step). -/
def tradeNoBuy : Trade := ⟨"ETHUSD", none⟩

/-- A fully healthy startup environment for witnesses. -/
def envOk : Orchestrator.Env :=
  ⟨true, some "mongodb://h", some "db", some "active", some "hist",
   some "suggested", some "model.json", true, true⟩

/-- An environment whose MongoDB connection block fails. -/
def envBad : Orchestrator.Env :=
  ⟨true, some "mongodb://h", some "db", some "active", some "hist",
   some "suggested", some "model.json", true, false⟩

/-- A concrete trade with a well-formed buyid that resolves to no snapshot. -/
def tradeBadRef : Trade := ⟨"BTCUSD", some "cccccccccccccccccccccccc"⟩

/-- A concrete stored suggested-signal document for witnesses. -/
def sdoc1 : Row :=
  [("symbol", Value.str "BTCUSD"), ("trade_type", Value.str "SELL"),
   ("sell_score", Value.num (8 / 10))]

/-- A concrete qualifying record to upsert for witnesses. -/
def rec1 : Row :=
  [("symbol", Value.str "BTCUSD"), ("trade_type", Value.str "SELL"),
   ("sell_score", Value.num (9 / 10))]

/-- A concrete scored row whose score equals the threshold. -/
def scoreRow : Row := [("sell_score", Value.num (7 / 10))]

/-- A classifier whose confidence is the bought row's open value (read from
the buy_open feature), so different symbols score differently in one run. -/
def mixedModel : SellModel.Model :=
  ⟨true, true, fun r =>
    match lookupCol r "buy_open" with
    | some (Value.num q) => q
    | _ => 0⟩

/-- An ETH bought snapshot whose open value 1 scores above the threshold
under `mixedModel`. -/
def snapC : Doc :=
  ⟨"dddddddddddddddddddddddd",
   [("symbol", Value.str "ETHUSD"), ("timestamp", Value.time 1),
    ("open", Value.num 1), ("close", Value.num 1)]⟩

/-- A later ETH snapshot (the latest row for ETHUSD). -/
def snapD : Doc :=
  ⟨"eeeeeeeeeeeeeeeeeeeeeeee",
   [("symbol", Value.str "ETHUSD"), ("timestamp", Value.time 2),
    ("open", Value.num 2), ("close", Value.num 2)]⟩

/-- An ETH trade whose buyid resolves to `snapC`. -/
def tradeC : Trade := ⟨"ETHUSD", some "dddddddddddddddddddddddd"⟩

/-- A BTC bought snapshot whose open value 1/2 scores below the threshold
under `mixedModel`. -/
def snapLow : Doc :=
  ⟨"ffffffffffffffffffffffff",
   [("symbol", Value.str "BTCUSD"), ("timestamp", Value.time 1),
    ("open", Value.num (1 / 2)), ("close", Value.num 1)]⟩

/-- A BTC trade whose buyid resolves to `snapLow`. -/
def tradeLow : Trade := ⟨"BTCUSD", some "ffffffffffffffffffffffff"⟩

/-! ### Lemmas about row operations -/

theorem lookupCol_append_left {a : Row} {c : String} {v : Value} (b : Row)
    (h : lookupCol a c = some v) : lookupCol (a ++ b) c = some v := by
  induction a with
  | nil => simp [lookupCol] at h
  | cons p rest ih =>
    obtain ⟨k, w⟩ := p
    by_cases hk : k = c
    · simp only [lookupCol, if_pos hk] at h
      simp [lookupCol, hk, h]
    · simp only [lookupCol, if_neg hk] at h
      simpa [lookupCol, hk] using ih h

theorem lookupCol_append_right {a : Row} {c : String} (b : Row)
    (h : lookupCol a c = none) : lookupCol (a ++ b) c = lookupCol b c := by
  induction a with
  | nil => simp
  | cons p rest ih =>
    obtain ⟨k, w⟩ := p
    by_cases hk : k = c
    · simp [lookupCol, if_pos hk] at h
    · simp only [lookupCol, if_neg hk] at h
      simpa [lookupCol, hk] using ih h

theorem lookupCol_mem_keys {r : Row} {c : String} {v : Value}
    (h : lookupCol r c = some v) : c ∈ keys r := by
  induction r with
  | nil => simp [lookupCol] at h
  | cons p rest ih =>
    obtain ⟨k, w⟩ := p
    by_cases hk : k = c
    · simp [keys, hk]
    · simp only [lookupCol, if_neg hk] at h
      exact List.mem_cons_of_mem _ (ih h)

theorem lookupCol_eq_none_of_not_mem {r : Row} {c : String}
    (h : ¬ c ∈ keys r) : lookupCol r c = none := by
  cases hl : lookupCol r c with
  | none => rfl
  | some v => exact absurd (lookupCol_mem_keys hl) h

theorem lookupCol_replaceCol_self {r : Row} {k : String} (v : Value)
    (h : k ∈ keys r) : lookupCol (replaceCol r k v) k = some v := by
  induction r with
  | nil => simp [keys] at h
  | cons p rest ih =>
    obtain ⟨k', w⟩ := p
    by_cases hk : k' = k
    · simp [replaceCol, hk, lookupCol]
    · have hm : k ∈ keys rest := by
        rcases List.mem_cons.mp h with h1 | h1
        · exact absurd h1.symm hk
        · exact h1
      simp only [replaceCol, if_neg hk]
      simpa [lookupCol, hk] using ih hm

theorem lookupCol_replaceCol_ne {r : Row} {k c : String} (v : Value)
    (h : c ≠ k) : lookupCol (replaceCol r k v) c = lookupCol r c := by
  induction r with
  | nil => simp [replaceCol]
  | cons p rest ih =>
    obtain ⟨k', w⟩ := p
    by_cases hc : k' = c
    · subst hc
      simp [replaceCol, if_neg h, lookupCol]
    · by_cases hk2 : k' = k
      · have hkc : ¬ k = c := fun he => h he.symm
        simp only [replaceCol, if_pos hk2, lookupCol, if_neg hkc, if_neg hc]
        exact ih
      · simp only [replaceCol, if_neg hk2, lookupCol, if_neg hc]
        exact ih

theorem keys_replaceCol (r : Row) (k : String) (v : Value) :
    keys (replaceCol r k v) = keys r := by
  induction r with
  | nil => rfl
  | cons p rest ih =>
    obtain ⟨k', w⟩ := p
    by_cases hk : k' = k
    · subst hk
      simp only [replaceCol, if_pos rfl]
      show k' :: keys (replaceCol rest k' v) = k' :: keys rest
      rw [ih]
    · simp only [replaceCol, if_neg hk]
      show k' :: keys (replaceCol rest k v) = k' :: keys rest
      rw [ih]

theorem lookupCol_setCol_self (r : Row) (k : String) (v : Value) :
    lookupCol (setCol r k v) k = some v := by
  unfold setCol
  by_cases h : k ∈ keys r
  · rw [if_pos h]; exact lookupCol_replaceCol_self v h
  · rw [if_neg h, lookupCol_append_right _ (lookupCol_eq_none_of_not_mem h)]
    simp [lookupCol]

theorem lookupCol_setCol_ne (r : Row) {k c : String} (v : Value) (h : c ≠ k) :
    lookupCol (setCol r k v) c = lookupCol r c := by
  unfold setCol
  by_cases hm : k ∈ keys r
  · rw [if_pos hm]; exact lookupCol_replaceCol_ne v h
  · rw [if_neg hm]
    cases hl : lookupCol r c with
    | some v' => exact lookupCol_append_left _ hl
    | none =>
      rw [lookupCol_append_right _ hl]
      have hkc : ¬ k = c := fun he => h he.symm
      simp [lookupCol, hkc]

theorem mem_keys_setCol_self (r : Row) (k : String) (v : Value) :
    k ∈ keys (setCol r k v) := by
  unfold setCol
  by_cases h : k ∈ keys r
  · rw [if_pos h, keys_replaceCol]; exact h
  · rw [if_neg h]; simp [keys]

theorem mem_keys_setCol {r : Row} {k c : String} {v : Value}
    (h : c ∈ keys (setCol r k v)) : c ∈ keys r ∨ c = k := by
  unfold setCol at h
  by_cases hm : k ∈ keys r
  · rw [if_pos hm, keys_replaceCol] at h; exact Or.inl h
  · rw [if_neg hm] at h
    simp only [keys, List.map_append, List.mem_append] at h
    rcases h with h | h
    · exact Or.inl h
    · simp at h; exact Or.inr h

theorem lookupCol_renameCol_new {r : Row} {old new : String}
    (h : ¬ new ∈ keys r) : lookupCol (renameCol r old new) new = lookupCol r old := by
  induction r with
  | nil => simp [renameCol, lookupCol]
  | cons p rest ih =>
    obtain ⟨k, w⟩ := p
    have hne : ¬ new = k := fun he => h (by simp [keys, he])
    have hmem : ¬ new ∈ keys rest := fun hm => h (List.mem_cons_of_mem _ hm)
    by_cases hk : k = old
    · have hstep : renameCol ((k, w) :: rest) old new =
          (new, w) :: renameCol rest old new := by
        simp [renameCol, hk]
      rw [hstep]
      simp [lookupCol, hk]
    · have h1 : ¬ k = new := fun he => hne he.symm
      have hstep : renameCol ((k, w) :: rest) old new =
          (k, w) :: renameCol rest old new := by
        simp [renameCol, hk]
      rw [hstep]
      simp only [lookupCol, if_neg h1, if_neg hk]
      exact ih hmem

theorem lookupCol_restrictCols (cols : List String) (r : Row) (c : String) :
    lookupCol (restrictCols cols r) c =
      if c ∈ cols then lookupCol r c else none := by
  induction cols with
  | nil => simp [restrictCols, lookupCol]
  | cons c0 rest ih =>
    cases hl : lookupCol r c0 with
    | none =>
      have hstep : restrictCols (c0 :: rest) r = restrictCols rest r := by
        simp [restrictCols, List.filterMap_cons, hl]
      rw [hstep, ih]
      by_cases hc : c = c0
      · subst hc; simp [hl]
      · simp [hc]
    | some v =>
      have hstep : restrictCols (c0 :: rest) r = (c0, v) :: restrictCols rest r := by
        simp [restrictCols, List.filterMap_cons, hl]
      rw [hstep]
      by_cases hc : c = c0
      · subst hc; simp [lookupCol, hl]
      · have h1 : ¬ c0 = c := fun he => hc he.symm
        simp only [lookupCol, if_neg h1, ih]
        simp [hc]

theorem keys_restrictCols_sublist (cols : List String) (r : Row) :
    List.Sublist (keys (restrictCols cols r)) cols := by
  induction cols with
  | nil => simp [restrictCols, keys]
  | cons c0 rest ih =>
    cases hl : lookupCol r c0 with
    | none =>
      have hstep : restrictCols (c0 :: rest) r = restrictCols rest r := by
        simp [restrictCols, List.filterMap_cons, hl]
      rw [hstep]; exact ih.cons c0
    | some v =>
      have hstep : restrictCols (c0 :: rest) r = (c0, v) :: restrictCols rest r := by
        simp [restrictCols, List.filterMap_cons, hl]
      rw [hstep]
      exact ih.cons₂ c0

theorem mem_frameCols {f : Frame} {r : Row} {c : String}
    (hr : r ∈ f) (hc : c ∈ keys r) : c ∈ frameCols f := by
  unfold frameCols
  rw [List.mem_flatten]
  exact ⟨keys r, List.mem_map_of_mem keys hr, hc⟩

theorem lookupCol_setCols {fields : Row} (d : Row) (c : String)
    (h : (keys fields).Nodup) :
    lookupCol (Orchestrator.setCols d fields) c =
      (lookupCol fields c).elim (lookupCol d c) some := by
  induction fields generalizing d with
  | nil => simp [Orchestrator.setCols, lookupCol]
  | cons p rest ih =>
    obtain ⟨k, v⟩ := p
    have hnd : (keys rest).Nodup ∧ ¬ k ∈ keys rest := by
      have h2 := h
      rw [show keys ((k, v) :: rest) = k :: keys rest from rfl,
        List.nodup_cons] at h2
      exact ⟨h2.2, h2.1⟩
    have hrec : Orchestrator.setCols d ((k, v) :: rest) =
        Orchestrator.setCols (setCol d k v) rest := rfl
    rw [hrec, ih (setCol d k v) hnd.1]
    by_cases hc : c = k
    · subst hc
      rw [lookupCol_eq_none_of_not_mem hnd.2, lookupCol_setCol_self]
      simp [lookupCol]
    · rw [lookupCol_setCol_ne _ _ hc]
      have h1 : ¬ k = c := fun he => hc he.symm
      simp only [lookupCol, if_neg h1]


/-! ### Lemmas about the persistence layer -/

namespace Orchestrator

theorem matchesKey_iff (d : Row) (sv tv : Value) :
    matchesKey d sv tv = true ↔
      (lookupCol d "symbol" = some sv ∧ lookupCol d "trade_type" = some tv) := by
  simp [matchesKey]

theorem keysOf_cons (p : Row) (l : List Row) :
    keysOf (p :: l) =
      (lookupCol p "symbol", lookupCol p "trade_type") :: keysOf l := rfl

theorem setCols_key {fields : Row} (d : Row) {sv tv : Value}
    (hnd : (keys fields).Nodup)
    (hs : lookupCol fields "symbol" = some sv)
    (ht : lookupCol fields "trade_type" = some tv) :
    lookupCol (setCols d fields) "symbol" = some sv ∧
      lookupCol (setCols d fields) "trade_type" = some tv := by
  constructor
  · rw [lookupCol_setCols d _ hnd, hs]; rfl
  · rw [lookupCol_setCols d _ hnd, ht]; rfl

theorem keysOf_updateOneUpsert (coll : List Row) {fields : Row} {sv tv : Value}
    (hnd : (keys fields).Nodup)
    (hs : lookupCol fields "symbol" = some sv)
    (ht : lookupCol fields "trade_type" = some tv) :
    keysOf (updateOneUpsert coll sv tv fields) =
      if coll.any (fun d => matchesKey d sv tv) then keysOf coll
      else keysOf coll ++ [(some sv, some tv)] := by
  induction coll with
  | nil =>
    have hk := setCols_key [("symbol", sv), ("trade_type", tv)] hnd hs ht
    simp [updateOneUpsert, keysOf, hk.1, hk.2]
  | cons d ds ih =>
    by_cases hm : matchesKey d sv tv = true
    · have hk := setCols_key d hnd hs ht
      have hd := (matchesKey_iff d sv tv).mp hm
      simp [updateOneUpsert, hm, keysOf_cons, hk.1, hk.2, hd.1, hd.2,
        List.any_cons]
    · have hneg : matchesKey d sv tv = false := by
        cases hmk : matchesKey d sv tv
        · rfl
        · exact absurd hmk hm
      by_cases ha : ds.any (fun x => matchesKey x sv tv) = true
      · simp [updateOneUpsert, hneg, keysOf_cons, ih, ha, List.any_cons]
      · simp [updateOneUpsert, hneg, keysOf_cons, ih, ha, List.any_cons]

theorem uniqueKeys_updateOneUpsert {coll : List Row} {fields : Row} {sv tv : Value}
    (hu : UniqueKeys coll) (hnd : (keys fields).Nodup)
    (hs : lookupCol fields "symbol" = some sv)
    (ht : lookupCol fields "trade_type" = some tv) :
    UniqueKeys (updateOneUpsert coll sv tv fields) := by
  unfold UniqueKeys
  rw [keysOf_updateOneUpsert coll hnd hs ht]
  by_cases ha : coll.any (fun d => matchesKey d sv tv) = true
  · simpa [ha] using hu
  · rw [if_neg ha]
    have hnot : ¬ (some sv, some tv) ∈ keysOf coll := by
      intro hmem
      rcases List.mem_map.mp hmem with ⟨d, hd, hkey⟩
      apply ha
      rw [List.any_eq_true]
      refine ⟨d, hd, ?_⟩
      rw [matchesKey_iff]
      rw [Prod.mk.injEq] at hkey
      exact ⟨hkey.1, hkey.2⟩
    rw [List.nodup_append]
    refine ⟨hu, by simp, ?_⟩
    intro a hamem habs
    simp only [List.mem_singleton] at habs
    exact hnot (habs ▸ hamem)

theorem uniqueKeys_persistRecord {coll out : List Row} {rec : Row} {now : Int}
    (hu : UniqueKeys coll) (hnd : (keys rec).Nodup)
    (hca : ¬ "created_at" ∈ keys rec)
    (h : persistRecord coll rec now = some out) : UniqueKeys out := by
  unfold persistRecord at h
  cases hsv : lookupCol rec "symbol" with
  | none => rw [hsv] at h; simp at h
  | some sv =>
    cases htv : lookupCol rec "trade_type" with
    | none => rw [hsv, htv] at h; simp at h
    | some tv =>
      rw [hsv, htv] at h
      simp only [Option.some.injEq] at h
      rw [← h]
      have hknd : (keys (rec ++ [("created_at", Value.time now)])).Nodup := by
        rw [show keys (rec ++ [("created_at", Value.time now)]) =
          keys rec ++ ["created_at"] by simp [keys]]
        rw [List.nodup_append]
        refine ⟨hnd, by simp, ?_⟩
        intro a hamem habs
        simp only [List.mem_singleton] at habs
        exact hca (habs ▸ hamem)
      exact uniqueKeys_updateOneUpsert hu hknd
        (lookupCol_append_left _ hsv) (lookupCol_append_left _ htv)

theorem uniqueKeys_saveRecords {now : Int} :
    ∀ (recs : List Row) {coll : List Row}, UniqueKeys coll →
    (∀ rec ∈ recs, (keys rec).Nodup ∧ ¬ "created_at" ∈ keys rec) →
    UniqueKeys (saveRecords coll recs now) := by
  intro recs
  induction recs with
  | nil => intro coll hu _; simpa [saveRecords] using hu
  | cons r rs ih =>
    intro coll hu hall
    cases hp : persistRecord coll r now with
    | none => simpa [saveRecords, hp] using hu
    | some c =>
      have hr := hall r (by simp)
      have hc : UniqueKeys c := uniqueKeys_persistRecord hu hr.1 hr.2 hp
      simpa [saveRecords, hp] using
        ih hc (fun rec hm => hall rec (List.mem_cons_of_mem _ hm))

theorem postModel_ok_recs {sym b sellid : String} {dfs : Frame} {recs : List Row}
    (h : postModel sym b sellid dfs = .ok recs) :
    ∀ rec ∈ recs, (keys rec).Nodup ∧ ¬ "created_at" ∈ keys rec := by
  simp only [postModel] at h
  split at h
  · exact absurd h (by simp)
  · split at h
    · exact absurd h (by simp)
    · split at h
      · exact absurd h (by simp)
      · simp only [Except.ok.injEq] at h
        subst h
        intro rec hrec
        rcases List.mem_map.mp hrec with ⟨r, _, hr⟩
        subst hr
        constructor
        · exact List.Nodup.sublist
            ((keys_restrictCols_sublist _ r).trans (List.filter_sublist _))
            (by decide)
        · intro hmem
          have h2 : "created_at" ∈ COLUMNS_TO_SAVE :=
            (((keys_restrictCols_sublist _ r).trans
              (List.filter_sublist _)).subset) hmem
          simp [COLUMNS_TO_SAVE] at h2

end Orchestrator

/-! ### Lemmas about the per-trade loop and the orchestrator -/

namespace Orchestrator

theorem processTrade_ok_recs {m : SellModel.Model} {mf : Bool} {hist : List Doc}
    {tr : Trade} {recs : List Row}
    (h : processTrade m mf hist tr = .ok recs) :
    ∀ rec ∈ recs, (keys rec).Nodup ∧ ¬ "created_at" ∈ keys rec := by
  unfold processTrade at h
  split at h
  · exact absurd h (by simp)
  · split at h
    · exact absurd h (by simp)
    · exact postModel_ok_recs h

theorem uniqueKeys_runTrades (m : SellModel.Model) (mf : Bool) (hist : List Doc)
    (now : Int) :
    ∀ (ts : List Trade) {coll : List Row}, UniqueKeys coll →
      UniqueKeys (runTrades m mf hist now coll ts).1 := by
  intro ts
  induction ts with
  | nil => intro coll hu; simpa [runTrades] using hu
  | cons t ts ih =>
    intro coll hu
    cases hp : processTrade m mf hist t with
    | error e => simpa [runTrades, hp] using ih hu
    | ok recs =>
      have hrecs := processTrade_ok_recs hp
      simpa [runTrades, hp] using ih (uniqueKeys_saveRecords recs hu hrecs)

theorem orchestrator_suggested (env : Env) (m : SellModel.Model) (now : Int)
    (w : World) :
    ((orchestrator_stage2_sell env m now w).1).suggested = w.suggested ∨
      ((orchestrator_stage2_sell env m now w).1).suggested =
        (runTrades m env.modelFileExists w.historical now w.suggested
          w.activeTrades).1 := by
  unfold orchestrator_stage2_sell
  split
  · exact Or.inl rfl
  · split
    · exact Or.inl rfl
    · split
      · exact Or.inl rfl
      · split
        · exact Or.inl rfl
        · split
          · exact Or.inl rfl
          · exact Or.inr rfl

theorem uniqueKeys_orchestrator (env : Env) (m : SellModel.Model) (now : Int)
    (w : World) (hu : UniqueKeys w.suggested) :
    UniqueKeys ((orchestrator_stage2_sell env m now w).1).suggested := by
  rcases orchestrator_suggested env m now w with h | h
  · rw [h]; exact hu
  · rw [h]
    exact uniqueKeys_runTrades m env.modelFileExists w.historical now
      w.activeTrades hu

theorem uniqueKeys_runsFold (sugg : List Row) (ps : List RunParams)
    (hu : UniqueKeys sugg) : UniqueKeys (runsFold sugg ps) := by
  induction ps generalizing sugg with
  | nil => simpa [runsFold] using hu
  | cons p ps ih =>
    have hstep : runsFold sugg (p :: ps) =
        runsFold ((orchestrator_stage2_sell p.env p.model p.now
          ⟨p.trades, p.hist, sugg⟩).1).suggested ps := rfl
    rw [hstep]
    exact ih _ (uniqueKeys_orchestrator p.env p.model p.now
      ⟨p.trades, p.hist, sugg⟩ hu)

theorem orchestrator_startup {env : Env} (m : SellModel.Model) (now : Int)
    (h : startupFails env) (w : World) :
    orchestrator_stage2_sell env m now w = (w, [startupMsg env]) := by
  unfold orchestrator_stage2_sell startupMsg
  by_cases h1 : env.dotenvExists = false
  · simp [h1]
  · rw [if_neg h1, if_neg h1]
    by_cases h2 : (falsy env.mongoConnStr || falsy env.mongoDbName ||
        falsy env.sellModelFile) = true
    · simp [h2]
    · rw [if_neg h2, if_neg h2]
      by_cases h3 : env.modelFileExists = false
      · simp [h3]
      · rw [if_neg h3, if_neg h3]
        by_cases h4 : env.connectOk = false
        · simp [h4]
        · exfalso
          rcases h with h | h | h | h | h | h
          · exact h1 h
          · exact h2 (by simp [h])
          · exact h2 (by simp [h])
          · exact h2 (by simp [h])
          · exact h3 h
          · exact h4 h

theorem applyTrade_of_error {m : SellModel.Model} {mf : Bool} {hist : List Doc}
    {tr : Trade} {e : String × String} (now : Int) (coll : List Row)
    (h : processTrade m mf hist tr = .error e) :
    applyTrade m mf hist now coll tr = coll := by
  simp [applyTrade, h]

theorem runTrades_skip {m : SellModel.Model} {mf : Bool} {hist : List Doc}
    {k : Trade} {e : String × String} (now : Int)
    (h : processTrade m mf hist k = .error e) :
    ∀ (xs ys : List Trade) (coll : List Row),
      (runTrades m mf hist now coll (xs ++ k :: ys)).1 =
        (runTrades m mf hist now coll (xs ++ ys)).1 ∧
      e ∈ (runTrades m mf hist now coll (xs ++ k :: ys)).2 := by
  intro xs
  induction xs with
  | nil =>
    intro ys coll
    constructor
    · simp [runTrades, h]
    · simp [runTrades, h]
  | cons x xs ih =>
    intro ys coll
    cases hx : processTrade m mf hist x with
    | error e' =>
      constructor
      · simpa [runTrades, hx] using (ih ys coll).1
      · simp only [List.cons_append, runTrades, hx]
        exact List.mem_cons_of_mem _ (ih ys coll).2
    | ok recs =>
      constructor
      · simpa [runTrades, hx] using (ih ys (saveRecords coll recs now)).1
      · simpa [runTrades, hx] using (ih ys (saveRecords coll recs now)).2

theorem pairTrade_error_id {hist : List Doc} {tr : Trade} {e : String × String}
    (h : pairTrade hist tr = .error e) :
    e.1 = tr.symbol ∨ tr.buyid = some e.1 := by
  simp only [pairTrade] at h
  split at h
  · cases h; exact Or.inl rfl
  · rename_i b hb
    split at h
    · cases h; exact Or.inl rfl
    · split at h
      · cases h; exact Or.inl rfl
      · split at h
        · cases h; exact Or.inr hb
        · split at h
          · cases h; exact Or.inl rfl
          · exact absurd h (by simp)

theorem postModel_error_fst {sym b sellid : String} {dfs : Frame}
    {e : String × String} (h : postModel sym b sellid dfs = .error e) :
    e.1 = sym := by
  simp only [postModel] at h
  split at h
  · cases h; rfl
  · split at h
    · cases h; rfl
    · split at h
      · cases h; rfl
      · exact absurd h (by simp)

theorem processTrade_error_id {m : SellModel.Model} {mf : Bool}
    {hist : List Doc} {tr : Trade} {e : String × String}
    (h : processTrade m mf hist tr = .error e) :
    e.1 = tr.symbol ∨ tr.buyid = some e.1 := by
  unfold processTrade at h
  split at h
  · rename_i e' he
    cases h
    exact pairTrade_error_id he
  · split at h
    · cases h; exact Or.inl rfl
    · exact Or.inl (postModel_error_fst h)

end Orchestrator

/-! ### Lemmas about skips, the in-place upsert, and the scoring function -/

theorem mem_keys_restrictCols {cols : List String} {r : Row} {c : String}
    (h : c ∈ keys (restrictCols cols r)) : c ∈ keys r := by
  induction cols with
  | nil => simp [restrictCols, keys] at h
  | cons c0 rest ih =>
    cases hl : lookupCol r c0 with
    | none =>
      have hstep : restrictCols (c0 :: rest) r = restrictCols rest r := by
        simp [restrictCols, List.filterMap_cons, hl]
      rw [hstep] at h
      exact ih h
    | some v =>
      have hstep : restrictCols (c0 :: rest) r = (c0, v) :: restrictCols rest r := by
        simp [restrictCols, List.filterMap_cons, hl]
      rw [hstep] at h
      rcases List.mem_cons.mp h with h1 | h1
      · exact h1 ▸ lookupCol_mem_keys hl
      · exact ih h1

theorem exists_of_mem_frameCols {f : Frame} {c : String}
    (h : c ∈ frameCols f) : ∃ r ∈ f, c ∈ keys r := by
  unfold frameCols at h
  rcases List.mem_flatten.mp h with ⟨ks, hks, hc⟩
  rcases List.mem_map.mp hks with ⟨r, hr, hrk⟩
  exact ⟨r, hr, hrk ▸ hc⟩

namespace Orchestrator

theorem uniqueKeys_tail {p : Row} {l : List Row} (h : UniqueKeys (p :: l)) :
    UniqueKeys l := by
  unfold UniqueKeys at h ⊢
  rw [keysOf_cons] at h
  exact (List.nodup_cons.mp h).2

theorem updateOneUpsert_inplace {pre post : List Row} {d : Row} {sv tv : Value}
    (fields : Row)
    (hu : UniqueKeys (pre ++ d :: post))
    (hs : lookupCol d "symbol" = some sv)
    (ht : lookupCol d "trade_type" = some tv) :
    updateOneUpsert (pre ++ d :: post) sv tv fields =
      pre ++ setCols d fields :: post := by
  induction pre with
  | nil =>
    have hm : matchesKey d sv tv = true := (matchesKey_iff d sv tv).mpr ⟨hs, ht⟩
    simp [updateOneUpsert, hm]
  | cons p pre ih =>
    have hu2 : UniqueKeys (pre ++ d :: post) := uniqueKeys_tail (by simpa using hu)
    have hne : ¬ matchesKey p sv tv = true := by
      intro hm
      rw [matchesKey_iff] at hm
      have hdmem : (some sv, some tv) ∈ keysOf (pre ++ d :: post) :=
        List.mem_map.mpr ⟨d, by simp, by rw [hs, ht]⟩
      have hcons : ((lookupCol p "symbol", lookupCol p "trade_type") ::
          keysOf (pre ++ d :: post)).Nodup := by
        have hx : UniqueKeys (p :: (pre ++ d :: post)) := by simpa using hu
        unfold UniqueKeys at hx
        rwa [keysOf_cons] at hx
      exact (List.nodup_cons.mp hcons).1 (by rw [hm.1, hm.2]; exact hdmem)
    have hneF : matchesKey p sv tv = false := by
      cases hmk : matchesKey p sv tv
      · rfl
      · exact absurd hmk hne
    show updateOneUpsert (p :: (pre ++ d :: post)) sv tv fields =
      p :: (pre ++ setCols d fields :: post)
    rw [show updateOneUpsert (p :: (pre ++ d :: post)) sv tv fields =
        if matchesKey p sv tv then setCols p fields :: (pre ++ d :: post)
        else p :: updateOneUpsert (pre ++ d :: post) sv tv fields from rfl]
    rw [hneF]
    simp only [Bool.false_eq_true, if_false]
    rw [ih hu2]

theorem pairTrade_skip {hist : List Doc} {tr : Trade}
    (h : tr.buyid = none ∨ tr.buyid = some "" ∨
      (∃ b, tr.buyid = some b ∧ isValidObjectId b = false) ∨
      (∃ b, tr.buyid = some b ∧ hist.filter (fun d => d.id = b) = []) ∨
      latestDoc hist tr.symbol = none) :
    ∃ e, pairTrade hist tr = .error e := by
  cases hb : tr.buyid with
  | none =>
    exact ⟨(tr.symbol, "missing buyid. Skipping."), by simp [pairTrade, hb]⟩
  | some b =>
    by_cases h1 : b = ""
    · exact ⟨(tr.symbol, "missing buyid. Skipping."),
        by simp [pairTrade, hb, h1]⟩
    · by_cases h2 : isValidObjectId b = false
      · exact ⟨(tr.symbol, "Invalid buyid format. Skipping trade."),
          by simp [pairTrade, hb, h1, h2]⟩
      · rcases h with h | h | h | h | h
        · rw [hb] at h; cases h
        · rw [hb] at h
          injection h with h
          exact absurd h h1
        · rcases h with ⟨b', hb', hval⟩
          rw [hb] at hb'
          injection hb' with hb'
          subst hb'
          exact absurd hval h2
        · rcases h with ⟨b', hb', hemp⟩
          rw [hb] at hb'
          injection hb' with hb'
          subst hb'
          refine ⟨(b, "No bought row found for buyid"), ?_⟩
          simp [pairTrade, hb, h1, h2, hemp]
        · by_cases hemp2 : (hist.filter (fun d => d.id = b)).map docToRow = []
          · refine ⟨(b, "No bought row found for buyid"), ?_⟩
            simp only [pairTrade, hb]
            rw [if_neg h1, if_neg h2, if_pos hemp2]
          · refine ⟨(tr.symbol, "No latest row found for symbol"), ?_⟩
            simp only [pairTrade, hb]
            rw [if_neg h1, if_neg h2, if_neg hemp2, h]

theorem processTrade_of_pairError {m : SellModel.Model} {mf : Bool}
    {hist : List Doc} {tr : Trade} {e : String × String}
    (h : pairTrade hist tr = .error e) :
    processTrade m mf hist tr = .error e := by
  simp [processTrade, h]

end Orchestrator

namespace SellModel

theorem run_ok_rows {m : Model} {mf : Bool} {data f : Frame}
    (h : run m mf data = .ok f) :
    ∀ r ∈ f,
      (∃ r0, lookupCol r "confidence_score" = some (Value.num (m.score r0))) ∧
      ∀ k ∈ keys r, k ∈ RETURNABLE_COLUMNS := by
  simp only [run] at h
  split at h
  · exact absurd h (by simp)
  · split at h
    · exact absurd h (by simp)
    · split at h
      · exact absurd h (by simp)
      · split at h
        · exact absurd h (by simp)
        · simp only [Except.ok.injEq] at h
          subst h
          intro r hr
          rcases List.mem_map.mp hr with ⟨r2, hr2, hrr⟩
          subst hrr
          rcases List.mem_map.mp hr2 with ⟨r1, hr1, hr12⟩
          subst hr12
          constructor
          · refine ⟨restrictCols (availableFeatures data) r1, ?_⟩
            rw [lookupCol_restrictCols]
            rw [if_pos ?memcase]
            · exact lookupCol_setCol_self r1 "confidence_score" _
            case memcase =>
              apply List.mem_filter.mpr
              refine ⟨?_, ?_⟩
              · split
                · decide
                · decide
              · simp only [decide_eq_true_eq]
                apply mem_frameCols (List.mem_map_of_mem _ hr1)
                exact mem_keys_setCol_self r1 "confidence_score" _
          · intro k hk
            have h1 := (keys_restrictCols_sublist _ _).subset hk
            have h2 := (List.filter_sublist _).subset h1
            revert h2
            split
            · exact fun h2 => h2
            · intro h2
              exact (by decide : ∀ x ∈ ["symbol", "timestamp",
                "confidence_score", "open", "high", "low", "volume"],
                x ∈ RETURNABLE_COLUMNS) k h2

theorem run_ok_length {m : Model} {mf : Bool} {data f : Frame}
    (h : run m mf data = .ok f) : f.length = data.length := by
  simp only [run] at h
  split at h
  · exact absurd h (by simp)
  · split at h
    · exact absurd h (by simp)
    · split at h
      · exact absurd h (by simp)
      · split at h
        · exact absurd h (by simp)
        · simp only [Except.ok.injEq] at h
          subst h
          simp [dfWithBuy]

theorem run_ok_of_flags {m : Model} {data : Frame}
    (hne : ¬ data = []) (hl : m.loadOk = true) (hp : m.predictOk = true) :
    ∃ f, run m true data = .ok f ∧ f.length = data.length := by
  cases hrun : run m true data with
  | error msg =>
    exfalso
    simp only [run] at hrun
    rw [if_neg hne, hl, hp] at hrun
    simp at hrun
  | ok f => exact ⟨f, rfl, run_ok_length hrun⟩

theorem mem_keys_foldBuy (L : List String) (cols : List String) (r : Row)
    (c : String)
    (h : c ∈ keys (L.foldl (fun acc x =>
      if x ∈ cols then setCol acc ("buy_" ++ x) ((lookupCol acc x).getD Value.nan)
      else acc) r)) :
    c ∈ keys r ∨ c ∈ L.map (fun x => "buy_" ++ x) := by
  induction L generalizing r with
  | nil => exact Or.inl h
  | cons x L ih =>
    rw [List.foldl_cons] at h
    by_cases hx : x ∈ cols
    · rw [if_pos hx] at h
      rcases ih _ h with h1 | h1
      · rcases mem_keys_setCol h1 with h2 | h2
        · exact Or.inl h2
        · exact Or.inr (by simp [h2])
      · exact Or.inr (List.mem_cons_of_mem _ h1)
    · rw [if_neg hx] at h
      rcases ih _ h with h1 | h1
      · exact Or.inl h1
      · exact Or.inr (List.mem_cons_of_mem _ h1)

theorem mem_keys_addBuyCols {cols : List String} {r : Row} {c : String}
    (h : c ∈ keys (addBuyCols cols r)) : c ∈ keys r ∨ c ∈ BUY_COLUMNS :=
  mem_keys_foldBuy BOUGHT_COLUMNS cols r c h

theorem run_ok_col_from_input {m : Model} {mf : Bool} {data f : Frame}
    {c : String} (h : run m mf data = .ok f)
    (hc1 : ¬ c ∈ BUY_COLUMNS) (hc2 : ¬ c = "confidence_score")
    (hcf : c ∈ frameCols f) : c ∈ frameCols data := by
  simp only [run] at h
  split at h
  · exact absurd h (by simp)
  · split at h
    · exact absurd h (by simp)
    · split at h
      · exact absurd h (by simp)
      · split at h
        · exact absurd h (by simp)
        · simp only [Except.ok.injEq] at h
          subst h
          rcases exists_of_mem_frameCols hcf with ⟨r, hr, hck⟩
          rcases List.mem_map.mp hr with ⟨r2, hr2, hrr⟩
          subst hrr
          rcases List.mem_map.mp hr2 with ⟨r1, hr1, hr12⟩
          subst hr12
          have h3 := mem_keys_restrictCols hck
          rcases mem_keys_setCol h3 with h4 | h4
          · rcases List.mem_map.mp hr1 with ⟨r0, hr0, hr01⟩
            subst hr01
            rcases mem_keys_addBuyCols h4 with h5 | h5
            · exact mem_frameCols hr0 h5
            · exact absurd h5 hc1
          · exact absurd h4 hc2

end SellModel

/-! ### Lemmas for the below-threshold frame property -/

namespace Orchestrator

theorem postModel_error_of_low (sym b sellid : String) {dfs : Frame}
    (hrows : ∀ r ∈ dfs,
      (∃ q, lookupCol r "confidence_score" = some (Value.num q) ∧
        q < MIN_SELL_SCORE) ∧ ¬ "sell_score" ∈ keys r) :
    ∃ e, postModel sym b sellid dfs = .error e := by
  by_cases hd : dfs = []
  · exact ⟨(sym, "Sell model returned no suggested trades."),
      by simp [postModel, hd]⟩
  · have hkept : filterByScore (renameScore (attachIds b sellid dfs)) = [] := by
      rw [filterByScore, List.filter_eq_nil_iff]
      intro rn hrn
      rcases List.mem_map.mp hrn with ⟨rw3, hrw3, hrn2⟩
      rcases List.mem_map.mp hrw3 with ⟨r, hr, hrw2⟩
      subst hrn2
      subst hrw2
      obtain ⟨⟨q, hq, hlt⟩, hsk⟩ := hrows r hr
      have hsk3 : ¬ "sell_score" ∈ keys (setCol (setCol (setCol r "trade_type"
          (Value.str "SELL")) "buyid" (Value.oid b)) "sellid"
          (Value.oid sellid)) := by
        intro hmem
        rcases mem_keys_setCol hmem with h1 | h1
        · rcases mem_keys_setCol h1 with h2 | h2
          · rcases mem_keys_setCol h2 with h3 | h3
            · exact hsk h3
            · exact absurd h3 (by decide)
          · exact absurd h2 (by decide)
        · exact absurd h1 (by decide)
      have hlook : lookupCol (renameCol (setCol (setCol (setCol r "trade_type"
          (Value.str "SELL")) "buyid" (Value.oid b)) "sellid" (Value.oid sellid))
          "confidence_score" "sell_score") "sell_score" = some (Value.num q) := by
        rw [lookupCol_renameCol_new hsk3]
        rw [lookupCol_setCol_ne _ _ (by decide)]
        rw [lookupCol_setCol_ne _ _ (by decide)]
        rw [lookupCol_setCol_ne _ _ (by decide)]
        exact hq
      simp only [passesThreshold, hlook, decide_eq_true_eq]
      exact not_le.mpr hlt
    by_cases hc : ¬ "confidence_score" ∈ frameCols (attachIds b sellid dfs) ∨
        (attachIds b sellid dfs).all isNullConf = true
    · refine ⟨(sym, "No confidence_score returned. Skipping save."), ?_⟩
      simp only [postModel]
      rw [if_neg hd, if_pos hc]
    · refine ⟨(sym, "No sell predictions above threshold. Skipping save."), ?_⟩
      simp only [postModel]
      rw [if_neg hd, if_neg hc, if_pos hkept]

end Orchestrator

/-! ### Lemmas for the per-symbol write frame -/

theorem lookupCol_renameCol_other {r : Row} {old new c : String}
    (h1 : ¬ c = old) (h2 : ¬ c = new) :
    lookupCol (renameCol r old new) c = lookupCol r c := by
  induction r with
  | nil => simp [renameCol]
  | cons p rest ih =>
    obtain ⟨k, w⟩ := p
    by_cases hk : k = old
    · have hstep : renameCol ((k, w) :: rest) old new =
          (new, w) :: renameCol rest old new := by
        simp [renameCol, hk]
      rw [hstep]
      have hnc : ¬ new = c := fun he => h2 he.symm
      have hkc : ¬ k = c := by rw [hk]; exact fun he => h1 he.symm
      simp only [lookupCol, if_neg hnc, if_neg hkc]
      exact ih
    · have hstep : renameCol ((k, w) :: rest) old new =
          (k, w) :: renameCol rest old new := by
        simp [renameCol, hk]
      rw [hstep]
      simp only [lookupCol]
      by_cases hkc : k = c
      · simp [hkc]
      · simp [hkc, ih]

theorem mem_keys_renameCol {r : Row} {old new k : String}
    (h : k ∈ keys (renameCol r old new)) : k = new ∨ k ∈ keys r := by
  induction r with
  | nil => simp [renameCol, keys] at h
  | cons p rest ih =>
    obtain ⟨k0, w⟩ := p
    by_cases hk : k0 = old
    · have hstep : renameCol ((k0, w) :: rest) old new =
          (new, w) :: renameCol rest old new := by
        simp [renameCol, hk]
      rw [hstep] at h
      rcases List.mem_cons.mp h with h1 | h1
      · exact Or.inl h1
      · rcases ih h1 with h2 | h2
        · exact Or.inl h2
        · exact Or.inr (List.mem_cons_of_mem _ h2)
    · have hstep : renameCol ((k0, w) :: rest) old new =
          (k0, w) :: renameCol rest old new := by
        simp [renameCol, hk]
      rw [hstep] at h
      rcases List.mem_cons.mp h with h1 | h1
      · exact Or.inr (h1 ▸ List.mem_cons_self k0 _)
      · rcases ih h1 with h2 | h2
        · exact Or.inl h2
        · exact Or.inr (List.mem_cons_of_mem _ h2)

theorem mem_keys_renameCol_of_mem {r : Row} {old new c : String}
    (hc : c ∈ keys r) (hne : ¬ c = old) :
    c ∈ keys (renameCol r old new) := by
  induction r with
  | nil => simp [keys] at hc
  | cons p rest ih =>
    obtain ⟨k0, w⟩ := p
    by_cases hk : k0 = old
    · have hstep : renameCol ((k0, w) :: rest) old new =
          (new, w) :: renameCol rest old new := by
        simp [renameCol, hk]
      rw [hstep]
      rcases List.mem_cons.mp hc with h1 | h1
      · exact absurd (h1.trans hk) hne
      · exact List.mem_cons_of_mem _ (ih h1)
    · have hstep : renameCol ((k0, w) :: rest) old new =
          (k0, w) :: renameCol rest old new := by
        simp [renameCol, hk]
      rw [hstep]
      rcases List.mem_cons.mp hc with h1 | h1
      · exact h1 ▸ List.mem_cons_self k0 _
      · exact List.mem_cons_of_mem _ (ih h1)

theorem mem_keys_setCol_of_mem {r : Row} {k c : String} (v : Value)
    (hc : c ∈ keys r) : c ∈ keys (setCol r k v) := by
  unfold setCol
  by_cases hm : k ∈ keys r
  · rw [if_pos hm, keys_replaceCol]; exact hc
  · rw [if_neg hm]
    have hkeys : keys (r ++ [(k, v)]) = keys r ++ [k] := by simp [keys]
    rw [hkeys]
    exact List.mem_append_left _ hc

theorem keys_concatRows :
    ∀ (A B : Frame) (x : Row), x ∈ concatRows A B → ∀ k ∈ keys x,
      (∃ a ∈ A, k ∈ keys a) ∨ (∃ b ∈ B, k ∈ keys b) := by
  intro A
  induction A with
  | nil =>
    intro B x hx k hk
    exact Or.inr ⟨x, hx, hk⟩
  | cons l ls ih =>
    intro B x hx k hk
    cases B with
    | nil =>
      rw [show concatRows (l :: ls) [] = l :: concatRows ls [] from rfl] at hx
      rcases List.mem_cons.mp hx with h1 | h1
      · exact Or.inl ⟨l, by simp, h1 ▸ hk⟩
      · rcases ih [] x h1 k hk with ⟨a, ha, hka⟩ | ⟨bb, hbb, _⟩
        · exact Or.inl ⟨a, List.mem_cons_of_mem _ ha, hka⟩
        · exact absurd hbb (List.not_mem_nil bb)
    | cons r rs =>
      rw [show concatRows (l :: ls) (r :: rs) =
        (l ++ r) :: concatRows ls rs from rfl] at hx
      rcases List.mem_cons.mp hx with h1 | h1
      · have hk2 : k ∈ keys l ++ keys r := by
          have := h1 ▸ hk
          simpa [keys] using this
        rcases List.mem_append.mp hk2 with h2 | h2
        · exact Or.inl ⟨l, by simp, h2⟩
        · exact Or.inr ⟨r, by simp, h2⟩
      · rcases ih rs x h1 k hk with ⟨a, ha, hka⟩ | ⟨bb, hbb, hkb⟩
        · exact Or.inl ⟨a, List.mem_cons_of_mem _ ha, hka⟩
        · exact Or.inr ⟨bb, List.mem_cons_of_mem _ hbb, hkb⟩

namespace SellModel

theorem run_ok_conf_from {m : Model} {mf : Bool} {data f : Frame}
    (h : run m mf data = .ok f) :
    ∀ r ∈ f, ∃ r1 ∈ dfWithBuy data,
      lookupCol r "confidence_score" =
        some (Value.num (m.score (restrictCols (availableFeatures data) r1))) := by
  simp only [run] at h
  split at h
  · exact absurd h (by simp)
  · split at h
    · exact absurd h (by simp)
    · split at h
      · exact absurd h (by simp)
      · split at h
        · exact absurd h (by simp)
        · simp only [Except.ok.injEq] at h
          subst h
          intro r hr
          rcases List.mem_map.mp hr with ⟨r2, hr2, hrr⟩
          subst hrr
          rcases List.mem_map.mp hr2 with ⟨r1, hr1, hr12⟩
          subst hr12
          refine ⟨r1, hr1, ?_⟩
          rw [lookupCol_restrictCols]
          rw [if_pos ?memc]
          · exact lookupCol_setCol_self r1 "confidence_score" _
          case memc =>
            apply List.mem_filter.mpr
            refine ⟨?_, ?_⟩
            · split
              · decide
              · decide
            · simp only [decide_eq_true_eq]
              apply mem_frameCols (List.mem_map_of_mem _ hr1)
              exact mem_keys_setCol_self r1 "confidence_score" _

end SellModel

namespace Orchestrator

theorem pairTrade_ok_combined {hist : List Doc} {tr : Trade}
    {b sellid : String} {combined : Frame}
    (h : pairTrade hist tr = .ok (b, sellid, combined)) :
    ∀ x ∈ combined, ∀ k ∈ keys x,
      k ∈ BOUGHT_COLUMNS ∨ k ∈ SELL_COLUMNS := by
  simp only [pairTrade] at h
  split at h
  · exact absurd h (by simp)
  · split at h
    · exact absurd h (by simp)
    · split at h
      · exact absurd h (by simp)
      · split at h
        · exact absurd h (by simp)
        · split at h
          · exact absurd h (by simp)
          · simp only [Except.ok.injEq, Prod.mk.injEq] at h
            obtain ⟨hb, hsid, hcomb⟩ := h
            subst hcomb
            intro x hx k hk
            rcases keys_concatRows _ _ x hx k hk with
              ⟨a, ha, hka⟩ | ⟨bb, hbb, hkb⟩
            · rcases List.mem_map.mp ha with ⟨a0, _, ha0⟩
              subst ha0
              have hsub := (keys_restrictCols_sublist _ a0).subset hka
              exact Or.inl ((List.filter_sublist _).subset hsub)
            · have hbb2 := List.mem_singleton.mp hbb
              subst hbb2
              have hsub := (keys_restrictCols_sublist _ _).subset hkb
              exact Or.inr ((List.filter_sublist _).subset hsub)

theorem postModel_ok_key {sym b sellid : String} {dfs : Frame}
    {recs : List Row}
    (hnos : ¬ "symbol" ∈ frameCols dfs)
    (h : postModel sym b sellid dfs = .ok recs) :
    ∀ rec ∈ recs,
      lookupCol rec "symbol" = some (Value.str sym) ∧
      lookupCol rec "trade_type" = some (Value.str "SELL") := by
  simp only [postModel] at h
  split at h
  · exact absurd h (by simp)
  · split at h
    · exact absurd h (by simp)
    · split at h
      · exact absurd h (by simp)
      · rename_i hkept
        simp only [Except.ok.injEq] at h
        subst h
        have hnosk : ¬ "symbol" ∈ frameCols (filterByScore (renameScore
            (attachIds b sellid dfs))) := by
          intro hmem
          rcases exists_of_mem_frameCols hmem with ⟨kr, hkr, hks⟩
          have hkr2 : kr ∈ renameScore (attachIds b sellid dfs) :=
            (List.mem_filter.mp hkr).1
          rcases List.mem_map.mp hkr2 with ⟨wr, hwr, hw⟩
          subst hw
          rcases List.mem_map.mp hwr with ⟨r, hr, hw2⟩
          subst hw2
          rcases mem_keys_renameCol hks with h1 | h1
          · exact absurd h1 (by decide)
          · rcases mem_keys_setCol h1 with h2 | h2
            · rcases mem_keys_setCol h2 with h3 | h3
              · rcases mem_keys_setCol h3 with h4 | h4
                · exact hnos (mem_frameCols hr h4)
                · exact absurd h4 (by decide)
              · exact absurd h3 (by decide)
            · exact absurd h2 (by decide)
        rw [if_neg hnosk]
        intro rec hrec
        rcases List.mem_map.mp hrec with ⟨wr, hwr, hwrec⟩
        subst hwrec
        rcases List.mem_map.mp hwr with ⟨kr, hkr, hkw⟩
        subst hkw
        have hsymSave : "symbol" ∈ COLUMNS_TO_SAVE.filter (fun c =>
            c ∈ frameCols ((filterByScore (renameScore
              (attachIds b sellid dfs))).map
              (fun r => setCol r "symbol" (Value.str sym)))) := by
          apply List.mem_filter.mpr
          refine ⟨by decide, ?_⟩
          simp only [decide_eq_true_eq]
          exact mem_frameCols (List.mem_map_of_mem _ hkr)
            (mem_keys_setCol_self kr "symbol" _)
        have hkrRen := (List.mem_filter.mp hkr).1
        rcases List.mem_map.mp hkrRen with ⟨wr2, hwr2, hw2⟩
        rcases List.mem_map.mp hwr2 with ⟨r0, hr0, hw3⟩
        have httKr : "trade_type" ∈ keys kr := by
          rw [← hw2, ← hw3]
          apply mem_keys_renameCol_of_mem ?_ (by decide)
          apply mem_keys_setCol_of_mem
          apply mem_keys_setCol_of_mem
          exact mem_keys_setCol_self r0 "trade_type" _
        have httSave : "trade_type" ∈ COLUMNS_TO_SAVE.filter (fun c =>
            c ∈ frameCols ((filterByScore (renameScore
              (attachIds b sellid dfs))).map
              (fun r => setCol r "symbol" (Value.str sym)))) := by
          apply List.mem_filter.mpr
          refine ⟨by decide, ?_⟩
          simp only [decide_eq_true_eq]
          exact mem_frameCols (List.mem_map_of_mem _ hkr)
            (mem_keys_setCol_of_mem _ httKr)
        constructor
        · rw [lookupCol_restrictCols, if_pos hsymSave]
          exact lookupCol_setCol_self kr "symbol" _
        · rw [lookupCol_restrictCols, if_pos httSave]
          rw [lookupCol_setCol_ne _ _ (by decide)]
          rw [← hw2, ← hw3]
          rw [lookupCol_renameCol_other (by decide) (by decide)]
          rw [lookupCol_setCol_ne _ _ (by decide)]
          rw [lookupCol_setCol_ne _ _ (by decide)]
          exact lookupCol_setCol_self r0 "trade_type" _

theorem processTrade_ok_key {m : SellModel.Model} {mf : Bool}
    {hist : List Doc} {tr : Trade} {recs : List Row}
    (h : processTrade m mf hist tr = .ok recs) :
    ∀ rec ∈ recs,
      lookupCol rec "symbol" = some (Value.str tr.symbol) ∧
      lookupCol rec "trade_type" = some (Value.str "SELL") := by
  unfold processTrade at h
  split at h
  · exact absurd h (by simp)
  · rename_i b sellid combined hpair
    split at h
    · exact absurd h (by simp)
    · rename_i dfs hrun
      have hnos : ¬ "symbol" ∈ frameCols dfs := by
        intro hmem
        have hin := SellModel.run_ok_col_from_input hrun (by decide)
          (by decide) hmem
        rcases exists_of_mem_frameCols hin with ⟨x, hx, hk⟩
        rcases pairTrade_ok_combined hpair x hx "symbol" hk with h1 | h1
        · exact absurd h1 (by decide)
        · exact absurd h1 (by decide)
      exact postModel_ok_key hnos h

theorem processTrade_low_trade (m : SellModel.Model) (mf : Bool)
    (hist : List Doc) (tr : Trade)
    (hlow : ∀ q ∈ tradeScores m hist tr, q < MIN_SELL_SCORE) :
    ∃ e, processTrade m mf hist tr = .error e := by
  cases hpair : pairTrade hist tr with
  | error e => exact ⟨e, processTrade_of_pairError hpair⟩
  | ok trip =>
    obtain ⟨b, sellid, combined⟩ := trip
    have hts : tradeScores m hist tr = (SellModel.dfWithBuy combined).map
        (fun r => m.score (restrictCols
          (SellModel.availableFeatures combined) r)) := by
      simp [tradeScores, hpair]
    cases hrun : SellModel.run m mf combined with
    | error msg =>
      refine ⟨(tr.symbol, "Sell model prediction failed: " ++ msg), ?_⟩
      simp [processTrade, hpair, hrun]
    | ok dfs =>
      have hrows : ∀ r ∈ dfs,
          (∃ q, lookupCol r "confidence_score" = some (Value.num q) ∧
            q < MIN_SELL_SCORE) ∧ ¬ "sell_score" ∈ keys r := by
        intro r hr
        obtain ⟨r1, hr1, hconf⟩ := SellModel.run_ok_conf_from hrun r hr
        refine ⟨⟨m.score (restrictCols (SellModel.availableFeatures combined)
          r1), hconf, ?_⟩, fun hmem => ?_⟩
        · apply hlow
          rw [hts]
          exact List.mem_map_of_mem _ hr1
        · exact absurd ((SellModel.run_ok_rows hrun r hr).2 _ hmem) (by decide)
      obtain ⟨e, he⟩ := postModel_error_of_low tr.symbol b sellid hrows
      exact ⟨e, by simp [processTrade, hpair, hrun, he]⟩

theorem keys_fields_nodup {rec : Row} (hnd : (keys rec).Nodup)
    (hca : ¬ "created_at" ∈ keys rec) (now : Int) :
    (keys (rec ++ [("created_at", Value.time now)])).Nodup := by
  rw [show keys (rec ++ [("created_at", Value.time now)]) =
    keys rec ++ ["created_at"] by simp [keys]]
  rw [List.nodup_append]
  refine ⟨hnd, by simp, ?_⟩
  intro a hamem habs
  simp only [List.mem_singleton] at habs
  exact hca (habs ▸ hamem)

theorem filter_symbol_updateOneUpsert {fields : Row} {sv tv : Value}
    {S : String} (coll : List Row)
    (hnd : (keys fields).Nodup)
    (hs : lookupCol fields "symbol" = some sv)
    (hsv : ¬ sv = Value.str S) :
    (updateOneUpsert coll sv tv fields).filter
        (fun x => lookupCol x "symbol" = some (Value.str S)) =
      coll.filter (fun x => lookupCol x "symbol" = some (Value.str S)) := by
  induction coll with
  | nil =>
    have hnew : lookupCol (setCols [("symbol", sv), ("trade_type", tv)]
        fields) "symbol" = some sv := by
      rw [lookupCol_setCols _ _ hnd, hs]; rfl
    have hPnew : ¬ lookupCol (setCols [("symbol", sv), ("trade_type", tv)]
        fields) "symbol" = some (Value.str S) := by
      rw [hnew]
      simp only [Option.some.injEq]
      exact hsv
    simp [updateOneUpsert, List.filter_cons, hPnew]
  | cons d ds ih =>
    by_cases hm : matchesKey d sv tv = true
    · have hd := (matchesKey_iff d sv tv).mp hm
      have hset : lookupCol (setCols d fields) "symbol" = some sv := by
        rw [lookupCol_setCols _ _ hnd, hs]; rfl
      have hPd : ¬ lookupCol d "symbol" = some (Value.str S) := by
        rw [hd.1]
        simp only [Option.some.injEq]
        exact hsv
      have hPset : ¬ lookupCol (setCols d fields) "symbol" =
          some (Value.str S) := by
        rw [hset]
        simp only [Option.some.injEq]
        exact hsv
      simp [updateOneUpsert, hm, List.filter_cons, hPd, hPset]
    · have hmf : matchesKey d sv tv = false := by
        cases hmk : matchesKey d sv tv
        · rfl
        · exact absurd hmk hm
      simp only [updateOneUpsert, hmf, Bool.false_eq_true, if_false]
      rw [List.filter_cons, List.filter_cons]
      split
      · rw [ih]
      · exact ih

theorem filter_symbol_persistRecord {coll out : List Row} {rec : Row}
    {now : Int} {S : String}
    (hnd : (keys rec).Nodup) (hca : ¬ "created_at" ∈ keys rec)
    (hsym : ¬ lookupCol rec "symbol" = some (Value.str S))
    (h : persistRecord coll rec now = some out) :
    out.filter (fun x => lookupCol x "symbol" = some (Value.str S)) =
      coll.filter (fun x => lookupCol x "symbol" = some (Value.str S)) := by
  unfold persistRecord at h
  cases hsv : lookupCol rec "symbol" with
  | none => rw [hsv] at h; simp at h
  | some sv =>
    cases htv : lookupCol rec "trade_type" with
    | none => rw [hsv, htv] at h; simp at h
    | some tv =>
      rw [hsv, htv] at h
      simp only [Option.some.injEq] at h
      rw [← h]
      have hsv2 : ¬ sv = Value.str S := by
        intro hcon
        subst hcon
        exact hsym hsv
      exact filter_symbol_updateOneUpsert coll (keys_fields_nodup hnd hca now)
        (lookupCol_append_left _ hsv) hsv2

theorem filter_symbol_saveRecords (now : Int) (S : String) :
    ∀ (recs : List Row) (coll : List Row),
    (∀ rec ∈ recs, ((keys rec).Nodup ∧ ¬ "created_at" ∈ keys rec) ∧
      ¬ lookupCol rec "symbol" = some (Value.str S)) →
    (saveRecords coll recs now).filter
        (fun x => lookupCol x "symbol" = some (Value.str S)) =
      coll.filter (fun x => lookupCol x "symbol" = some (Value.str S)) := by
  intro recs
  induction recs with
  | nil => intro coll _; simp [saveRecords]
  | cons r rs ih =>
    intro coll hall
    cases hp : persistRecord coll r now with
    | none => simp [saveRecords, hp]
    | some c =>
      have hr := hall r (by simp)
      have h1 := filter_symbol_persistRecord hr.1.1 hr.1.2 hr.2 hp
      have h2 := ih c (fun rec hm => hall rec (List.mem_cons_of_mem _ hm))
      rw [show saveRecords coll (r :: rs) now = saveRecords c rs now by
        simp [saveRecords, hp]]
      rw [h2, h1]

theorem filter_symbol_runTrades (m : SellModel.Model) (mf : Bool)
    (hist : List Doc) (now : Int) (S : String) :
    ∀ (ts : List Trade),
    (∀ tr ∈ ts, tr.symbol = S →
      ∀ q ∈ tradeScores m hist tr, q < MIN_SELL_SCORE) →
    ∀ (coll : List Row),
    ((runTrades m mf hist now coll ts).1).filter
        (fun x => lookupCol x "symbol" = some (Value.str S)) =
      coll.filter (fun x => lookupCol x "symbol" = some (Value.str S)) := by
  intro ts
  induction ts with
  | nil => intro _ coll; simp [runTrades]
  | cons t ts ih =>
    intro hlow coll
    have ihts := ih (fun tr hm => hlow tr (List.mem_cons_of_mem _ hm))
    by_cases hts : t.symbol = S
    · obtain ⟨e, he⟩ := processTrade_low_trade m mf hist t
        (hlow t (by simp) hts)
      rw [show (runTrades m mf hist now coll (t :: ts)).1 =
        (runTrades m mf hist now coll ts).1 by simp [runTrades, he]]
      exact ihts coll
    · cases hp : processTrade m mf hist t with
      | error e =>
        rw [show (runTrades m mf hist now coll (t :: ts)).1 =
          (runTrades m mf hist now coll ts).1 by simp [runTrades, hp]]
        exact ihts coll
      | ok recs =>
        have hrecs := processTrade_ok_recs hp
        have hkeys := processTrade_ok_key hp
        have hsave := filter_symbol_saveRecords now S recs coll (fun rec hm =>
          ⟨hrecs rec hm, by
            rw [(hkeys rec hm).1]
            simp only [Option.some.injEq, Value.str.injEq]
            exact hts⟩)
        rw [show (runTrades m mf hist now coll (t :: ts)).1 =
          (runTrades m mf hist now (saveRecords coll recs now) ts).1 by
            simp [runTrades, hp]]
        rw [ihts (saveRecords coll recs now), hsave]

end Orchestrator

/-! ### Claim theorems -/

/-- C1: starting from a suggested-signals collection with at most one
document per (symbol, trade_type) key, every sequence of full orchestrator
runs preserves that invariant; and upserting a qualifying record whose
(symbol, trade_type) key already has a document overwrites that document's
fields (sell_score, buyid, sellid, created_at) in place — same position,
same collection length — rather than inserting a second document. -/
theorem c1_suggested_signals_uniqueness :
    (∀ (sugg : List Row) (ps : List Orchestrator.RunParams),
      Orchestrator.UniqueKeys sugg →
      Orchestrator.UniqueKeys (Orchestrator.runsFold sugg ps)) ∧
    (∀ (pre post : List Row) (d fields : Row) (sv tv : Value),
      Orchestrator.UniqueKeys (pre ++ d :: post) →
      lookupCol d "symbol" = some sv →
      lookupCol d "trade_type" = some tv →
      (keys fields).Nodup →
      Orchestrator.updateOneUpsert (pre ++ d :: post) sv tv fields =
        pre ++ Orchestrator.setCols d fields :: post ∧
      ∀ c v, lookupCol fields c = some v →
        lookupCol (Orchestrator.setCols d fields) c = some v) := by
  constructor
  · exact fun sugg ps hu => Orchestrator.uniqueKeys_runsFold sugg ps hu
  · intro pre post d fields sv tv hu hs ht hnd
    constructor
    · exact Orchestrator.updateOneUpsert_inplace fields hu hs ht
    · intro c v hcv
      rw [lookupCol_setCols d c hnd, hcv]
      rfl

/-- Witness for C1: two identical runs over one active trade leave exactly
one document per key, and a concrete upsert on an existing key rewrites the
document in place. -/
theorem c1_witness :
    Orchestrator.UniqueKeys ([] : List Row) ∧
    Orchestrator.UniqueKeys (Orchestrator.runsFold []
      [⟨envOk, testModel, 5, [tradeA], [snapA, snapB]⟩,
       ⟨envOk, testModel, 9, [tradeA], [snapA, snapB]⟩]) ∧
    Orchestrator.UniqueKeys [sdoc1] ∧
    Orchestrator.updateOneUpsert [sdoc1] (Value.str "BTCUSD")
      (Value.str "SELL") rec1 = [Orchestrator.setCols sdoc1 rec1] :=
  ⟨by decide,
   c1_suggested_signals_uniqueness.1 []
     [⟨envOk, testModel, 5, [tradeA], [snapA, snapB]⟩,
      ⟨envOk, testModel, 9, [tradeA], [snapA, snapB]⟩] (by decide),
   by decide,
   (c1_suggested_signals_uniqueness.2 [] [] sdoc1 rec1 (Value.str "BTCUSD")
     (Value.str "SELL") (by decide) (by decide) (by decide) (by decide)).1⟩

/-- C2: for a scored row carrying a numeric sell_score, the threshold filter
of line 146 keeps the row exactly when its score is at least
MIN_SELL_SCORE = 0.7: a score equal to the threshold qualifies, and a score
threshold − ε for any ε > 0 is dropped. -/
theorem c2_threshold_inclusive (f : Frame) (r : Row) (q : ℚ)
    (h : lookupCol r "sell_score" = some (Value.num q)) :
    (r ∈ Orchestrator.filterByScore f ↔
      r ∈ f ∧ Orchestrator.MIN_SELL_SCORE ≤ q) ∧
    (q = Orchestrator.MIN_SELL_SCORE → r ∈ f →
      r ∈ Orchestrator.filterByScore f) ∧
    (∀ ε : ℚ, 0 < ε → q = Orchestrator.MIN_SELL_SCORE - ε →
      ¬ r ∈ Orchestrator.filterByScore f) := by
  have hiff : r ∈ Orchestrator.filterByScore f ↔
      r ∈ f ∧ Orchestrator.MIN_SELL_SCORE ≤ q := by
    rw [Orchestrator.filterByScore, List.mem_filter]
    simp [Orchestrator.passesThreshold, h]
  refine ⟨hiff, ?_, ?_⟩
  · intro hq hmem
    exact hiff.mpr ⟨hmem, le_of_eq hq.symm⟩
  · intro ε hε hq hmem
    have hle := (hiff.mp hmem).2
    rw [hq] at hle
    linarith

/-- Witness for C2 at a concrete row scored exactly 0.7. -/
theorem c2_witness :
    lookupCol scoreRow "sell_score" = some (Value.num (7 / 10)) ∧
    ((scoreRow ∈ Orchestrator.filterByScore [scoreRow] ↔
      scoreRow ∈ [scoreRow] ∧
        Orchestrator.MIN_SELL_SCORE ≤ (7 / 10 : ℚ)) ∧
     ((7 / 10 : ℚ) = Orchestrator.MIN_SELL_SCORE →
       scoreRow ∈ [scoreRow] →
       scoreRow ∈ Orchestrator.filterByScore [scoreRow]) ∧
     (∀ ε : ℚ, 0 < ε → (7 / 10 : ℚ) = Orchestrator.MIN_SELL_SCORE - ε →
       ¬ scoreRow ∈ Orchestrator.filterByScore [scoreRow])) :=
  ⟨rfl, c2_threshold_inclusive [scoreRow] scoreRow (7 / 10) rfl⟩

/-- C3 counterexample: on an empty input batch the scoring function does not
return a no-op success; it returns the reported failure
status error, "No input data". -/
theorem c3_counterexample :
    SellModel.run testModel true [] = Except.error "No input data" := by
  simp [SellModel.run]

/-- C3 amended: for every classifier and model-file state, an empty input
batch makes `run` return the error result "No input data" — a reported,
non-raising failure with no classifier invocation — rather than a success
with zero rows. -/
theorem c3_empty_batch_error (m : SellModel.Model) (mf : Bool) :
    SellModel.run m mf [] = Except.error "No input data" := by
  simp [SellModel.run]

/-- C4 counterexample: a trade whose well-formed buyid resolves to no
snapshot fails at the pairing step, but its log line (source line 97) is
"No bought row found for buyid {buyid}" — it interpolates the buyid, not
the trade's instrument symbol, so this failure is not logged with the
symbol as the claim states. -/
theorem c4_counterexample :
    Orchestrator.processTrade testModel true [] tradeBadRef =
      Except.error ("cccccccccccccccccccccccc", "No bought row found for buyid") ∧
    ¬ "cccccccccccccccccccccccc" = tradeBadRef.symbol := by
  constructor
  · rfl
  · decide

/-- C4 amended: every per-trade failure is caught: it produces a log entry
carrying the reason and the trade's identifier — the instrument symbol at
every step except the missing-bought-row warning, which identifies the
trade by its buyid — the entry appears in the run's log, and the remaining
trades produce exactly the collection they would have produced without the
failing trade; no failure aborts the run. -/
theorem c4_batch_isolation (m : SellModel.Model) (mf : Bool) (hist : List Doc)
    (now : Int) (coll : List Row) (xs ys : List Trade) (k : Trade)
    (e : String × String)
    (h : Orchestrator.processTrade m mf hist k = .error e) :
    (e.1 = k.symbol ∨ k.buyid = some e.1) ∧
    e ∈ (Orchestrator.runTrades m mf hist now coll (xs ++ k :: ys)).2 ∧
    (Orchestrator.runTrades m mf hist now coll (xs ++ k :: ys)).1 =
      (Orchestrator.runTrades m mf hist now coll (xs ++ ys)).1 :=
  ⟨Orchestrator.processTrade_error_id h,
   (Orchestrator.runTrades_skip now h xs ys coll).2,
   (Orchestrator.runTrades_skip now h xs ys coll).1⟩

/-- Witness for C4: a buyid-less trade fails amid another trade and the
batch is unaffected. -/
theorem c4_witness :
    Orchestrator.processTrade testModel true [snapA, snapB] tradeNoBuy =
      Except.error ("ETHUSD", "missing buyid. Skipping.") ∧
    (("ETHUSD", "missing buyid. Skipping.").1 = tradeNoBuy.symbol ∨
      tradeNoBuy.buyid = some ("ETHUSD", "missing buyid. Skipping.").1) ∧
    ("ETHUSD", "missing buyid. Skipping.") ∈
      (Orchestrator.runTrades testModel true [snapA, snapB] 5 []
        ([tradeA] ++ tradeNoBuy :: [])).2 ∧
    (Orchestrator.runTrades testModel true [snapA, snapB] 5 []
      ([tradeA] ++ tradeNoBuy :: [])).1 =
      (Orchestrator.runTrades testModel true [snapA, snapB] 5 []
        ([tradeA] ++ [])).1 :=
  ⟨rfl, c4_batch_isolation testModel true [snapA, snapB] 5 [] [tradeA] []
    tradeNoBuy ("ETHUSD", "missing buyid. Skipping.") rfl⟩

/-- C5: a trade whose buyid is missing (absent or empty), malformed (not a
valid ObjectId string), or resolving to no historical document, or whose
symbol has no snapshot at all (no latest row), writes nothing to the
suggested-trades collection, and the run over the remaining trades is
exactly as if the trade were absent. -/
theorem c5_missing_reference_skip (m : SellModel.Model) (mf : Bool)
    (hist : List Doc) (now : Int) (coll : List Row) (xs ys : List Trade)
    (tr : Trade)
    (h : tr.buyid = none ∨ tr.buyid = some "" ∨
      (∃ b, tr.buyid = some b ∧ isValidObjectId b = false) ∨
      (∃ b, tr.buyid = some b ∧ hist.filter (fun d => d.id = b) = []) ∨
      latestDoc hist tr.symbol = none) :
    Orchestrator.applyTrade m mf hist now coll tr = coll ∧
    (Orchestrator.runTrades m mf hist now coll (xs ++ tr :: ys)).1 =
      (Orchestrator.runTrades m mf hist now coll (xs ++ ys)).1 := by
  obtain ⟨e, he⟩ := Orchestrator.pairTrade_skip h
  have hp : Orchestrator.processTrade m mf hist tr = .error e :=
    Orchestrator.processTrade_of_pairError he
  exact ⟨Orchestrator.applyTrade_of_error now coll hp,
    (Orchestrator.runTrades_skip now hp xs ys coll).1⟩

/-- Witness for C5: an unresolvable buyid writes nothing and leaves the
batch as if absent. -/
theorem c5_witness :
    (tradeBadRef.buyid = none ∨ tradeBadRef.buyid = some "" ∨
      (∃ b, tradeBadRef.buyid = some b ∧ isValidObjectId b = false) ∨
      (∃ b, tradeBadRef.buyid = some b ∧
        List.filter (fun d => d.id = b) ([] : List Doc) = []) ∨
      latestDoc [] tradeBadRef.symbol = none) ∧
    (Orchestrator.applyTrade testModel true [] 5 [sdoc1] tradeBadRef =
      [sdoc1] ∧
    (Orchestrator.runTrades testModel true [] 5 [sdoc1]
      ([] ++ tradeBadRef :: [])).1 =
      (Orchestrator.runTrades testModel true [] 5 [sdoc1] ([] ++ [])).1) :=
  ⟨Or.inr (Or.inr (Or.inr (Or.inl
      ⟨"cccccccccccccccccccccccc", rfl, rfl⟩))),
   c5_missing_reference_skip testModel true [] 5 [sdoc1] [] [] tradeBadRef
     (Or.inr (Or.inr (Or.inr (Or.inl
       ⟨"cccccccccccccccccccccccc", rfl, rfl⟩))))⟩

/-- C6 counterexample: the pairing step's column set and the model's
expected feature set are not equal: the orchestrator retains
quote_asset_volume (and its sell_-prefixed counterpart), but neither its
buy_ nor its sell_ counterpart is among the model's expected features. -/
theorem c6_counterexample :
    "quote_asset_volume" ∈ Orchestrator.BOUGHT_COLUMNS ∧
    ¬ "buy_quote_asset_volume" ∈ SellModel.EXPECTED_FEATURES ∧
    "sell_quote_asset_volume" ∈ Orchestrator.SELL_COLUMNS ∧
    ¬ "sell_quote_asset_volume" ∈ SellModel.EXPECTED_FEATURES := by
  decide

/-- C6 amended: the model's expected underlying field set is a strict
subset of the fields the pairing step retains: every bought-side and
sell-side field the model expects is supplied by the pairing step, but
four retained fields — quote_asset_volume, number_of_trades,
taker_buy_base, taker_buy_quote — are not expected by the model under
either prefix. -/
theorem c6_feature_sets_subset :
    (∀ c ∈ SellModel.BOUGHT_COLUMNS, c ∈ Orchestrator.BOUGHT_COLUMNS) ∧
    (∀ c ∈ SellModel.SELL_COLUMNS, c ∈ Orchestrator.SELL_COLUMNS) ∧
    (∀ c ∈ ["quote_asset_volume", "number_of_trades", "taker_buy_base",
      "taker_buy_quote"], c ∈ Orchestrator.BOUGHT_COLUMNS ∧
      ¬ c ∈ SellModel.BOUGHT_COLUMNS) := by
  decide

/-- C7: if every confidence score the run computes for symbol S is strictly
below the threshold, the run performs no write for that symbol even while
trades for other symbols may qualify and write: the sub-collection of
documents whose symbol is S — in particular the (S, "SELL") document — is
exactly unchanged, so a previously persisted document for S is still
present with every field (score, snapshot references, creation timestamp)
intact. -/
theorem c7_no_overwrite_on_disqualification (m : SellModel.Model) (mf : Bool)
    (hist : List Doc) (now : Int) (coll : List Row) (ts : List Trade)
    (S : String) (d : Row) (hd : d ∈ coll)
    (hdS : lookupCol d "symbol" = some (Value.str S))
    (hlow : ∀ tr ∈ ts, tr.symbol = S →
      ∀ q ∈ Orchestrator.tradeScores m hist tr,
        q < Orchestrator.MIN_SELL_SCORE) :
    ((Orchestrator.runTrades m mf hist now coll ts).1).filter
        (fun x => lookupCol x "symbol" = some (Value.str S)) =
      coll.filter (fun x => lookupCol x "symbol" = some (Value.str S)) ∧
    d ∈ (Orchestrator.runTrades m mf hist now coll ts).1 := by
  have hfilter :=
    Orchestrator.filter_symbol_runTrades m mf hist now S ts hlow coll
  refine ⟨hfilter, ?_⟩
  have hdf : d ∈ coll.filter
      (fun x => lookupCol x "symbol" = some (Value.str S)) :=
    List.mem_filter.mpr ⟨hd, by simp [hdS]⟩
  rw [← hfilter] at hdf
  exact (List.mem_filter.mp hdf).1

/-- Witness for C7 at a mixed run: the ETH trade scores 1 and is persisted,
every BTC score is 1/2 (below threshold), and the previously persisted
BTC document is exactly preserved. -/
theorem c7_witness :
    sdoc1 ∈ [sdoc1] ∧
    lookupCol sdoc1 "symbol" = some (Value.str "BTCUSD") ∧
    (∀ tr ∈ [tradeC, tradeLow], tr.symbol = "BTCUSD" →
      ∀ q ∈ Orchestrator.tradeScores mixedModel
        [snapLow, snapB, snapC, snapD] tr,
        q < Orchestrator.MIN_SELL_SCORE) ∧
    (((Orchestrator.runTrades mixedModel true [snapLow, snapB, snapC, snapD]
        9 [sdoc1] [tradeC, tradeLow]).1).filter
        (fun x => lookupCol x "symbol" = some (Value.str "BTCUSD")) =
      [sdoc1].filter
        (fun x => lookupCol x "symbol" = some (Value.str "BTCUSD")) ∧
    sdoc1 ∈ (Orchestrator.runTrades mixedModel true
      [snapLow, snapB, snapC, snapD] 9 [sdoc1] [tradeC, tradeLow]).1) := by
  have hlow : ∀ tr ∈ [tradeC, tradeLow], tr.symbol = "BTCUSD" →
      ∀ q ∈ Orchestrator.tradeScores mixedModel
        [snapLow, snapB, snapC, snapD] tr,
        q < Orchestrator.MIN_SELL_SCORE := by
    intro tr htr hS q hq
    rcases List.mem_cons.mp htr with h1 | h1
    · subst h1
      exact absurd hS (by decide)
    · rcases List.mem_cons.mp h1 with h2 | h2
      · subst h2
        have hev : Orchestrator.tradeScores mixedModel
            [snapLow, snapB, snapC, snapD] tradeLow = [1 / 2] := by rfl
        rw [hev] at hq
        have hq2 := List.mem_singleton.mp hq
        subst hq2
        norm_num [Orchestrator.MIN_SELL_SCORE]
      · exact absurd h2 (List.not_mem_nil tr)
  exact ⟨List.mem_singleton.mpr rfl, rfl, hlow,
    c7_no_overwrite_on_disqualification mixedModel true
      [snapLow, snapB, snapC, snapD] 9 [sdoc1] [tradeC, tradeLow] "BTCUSD"
      sdoc1 (List.mem_singleton.mpr rfl) rfl hlow⟩

/-- C8 counterexample: a successfully scored batch whose input lacks the
symbol and timestamp columns produces a result without them — the scoring
function only passes identifying columns through when the input contains
them, so the claimed unconditional presence of symbol and timestamp fails
(this is why the orchestrator re-adds the symbol at line 152). -/
theorem c8_counterexample :
    SellModel.run testModel true [[("open", Value.num 1)]] =
      Except.ok [[("confidence_score", Value.num 1), ("open", Value.num 1)]] ∧
    ¬ "symbol" ∈ frameCols
      [[("confidence_score", Value.num 1), ("open", Value.num 1)]] ∧
    ¬ "timestamp" ∈ frameCols
      [[("confidence_score", Value.num 1), ("open", Value.num 1)]] := by
  refine ⟨rfl, by decide, by decide⟩

/-- C8 amended: every row of a successful scoring result carries a numeric
confidence_score, every result column is among the returnable columns
(symbol, timestamp, confidence_score, open, high, low, volume, sell_close),
and the identifying columns symbol and timestamp appear in the result only
when they were present in the input batch. -/
theorem c8_result_columns (m : SellModel.Model) (mf : Bool) (data f : Frame)
    (h : SellModel.run m mf data = .ok f) :
    (∀ r ∈ f, ∃ q, lookupCol r "confidence_score" = some (Value.num q)) ∧
    (∀ r ∈ f, ∀ k ∈ keys r, k ∈ SellModel.RETURNABLE_COLUMNS) ∧
    ("symbol" ∈ frameCols f → "symbol" ∈ frameCols data) ∧
    ("timestamp" ∈ frameCols f → "timestamp" ∈ frameCols data) := by
  refine ⟨?_, ?_, ?_, ?_⟩
  · intro r hr
    obtain ⟨⟨r0, hc⟩, _⟩ := SellModel.run_ok_rows h r hr
    exact ⟨m.score r0, hc⟩
  · intro r hr
    exact (SellModel.run_ok_rows h r hr).2
  · exact fun hm => SellModel.run_ok_col_from_input h (by decide) (by decide) hm
  · exact fun hm => SellModel.run_ok_col_from_input h (by decide) (by decide) hm

/-- Witness for C8 at the one-column batch. -/
theorem c8_witness :
    SellModel.run testModel true [[("open", Value.num 1)]] =
      Except.ok [[("confidence_score", Value.num 1), ("open", Value.num 1)]] ∧
    ((∀ r ∈ [[("confidence_score", Value.num 1), ("open", Value.num 1)]],
      ∃ q, lookupCol r "confidence_score" = some (Value.num q)) ∧
    (∀ r ∈ [[("confidence_score", Value.num 1), ("open", Value.num 1)]],
      ∀ k ∈ keys r, k ∈ SellModel.RETURNABLE_COLUMNS) ∧
    ("symbol" ∈ frameCols
        [[("confidence_score", Value.num 1), ("open", Value.num 1)]] →
      "symbol" ∈ frameCols [[("open", Value.num 1)]]) ∧
    ("timestamp" ∈ frameCols
        [[("confidence_score", Value.num 1), ("open", Value.num 1)]] →
      "timestamp" ∈ frameCols [[("open", Value.num 1)]])) :=
  ⟨rfl, c8_result_columns testModel true [[("open", Value.num 1)]]
    [[("confidence_score", Value.num 1), ("open", Value.num 1)]] rfl⟩

/-- C9: when the classifier loads and predicts, a nonempty batch from which
some expected model features are absent is still scored: the call succeeds,
returns one row per input row, each with a numeric confidence_score
computed from the available features only, and the missing-features set
(the logged "Missing expected columns" set) is nonempty. -/
theorem c9_missing_features_tolerated (m : SellModel.Model) (data : Frame)
    (hne : ¬ data = []) (hl : m.loadOk = true) (hp : m.predictOk = true)
    (hmiss : ∃ c ∈ SellModel.EXPECTED_FEATURES,
      ¬ c ∈ frameCols (SellModel.dfWithBuy data)) :
    (∃ f, SellModel.run m true data = .ok f ∧ f.length = data.length ∧
      ∀ r ∈ f, ∃ q, lookupCol r "confidence_score" = some (Value.num q)) ∧
    ¬ SellModel.missingFeatures data = [] := by
  obtain ⟨f, hf, hlen⟩ := SellModel.run_ok_of_flags hne hl hp
  refine ⟨⟨f, hf, hlen, ?_⟩, ?_⟩
  · intro r hr
    obtain ⟨⟨r0, hc⟩, _⟩ := SellModel.run_ok_rows hf r hr
    exact ⟨m.score r0, hc⟩
  · obtain ⟨c, hc1, hc2⟩ := hmiss
    intro hnil
    have hcm : c ∈ SellModel.missingFeatures data :=
      List.mem_filter.mpr ⟨hc1, by simpa using hc2⟩
    rw [hnil] at hcm
    exact absurd hcm (List.not_mem_nil c)

/-- Witness for C9 at a batch supplying only the open column. -/
theorem c9_witness :
    ¬ ([[("open", Value.num 1)]] : Frame) = [] ∧
    testModel.loadOk = true ∧
    testModel.predictOk = true ∧
    (∃ c ∈ SellModel.EXPECTED_FEATURES,
      ¬ c ∈ frameCols (SellModel.dfWithBuy [[("open", Value.num 1)]])) ∧
    ((∃ f, SellModel.run testModel true [[("open", Value.num 1)]] = .ok f ∧
      f.length = ([[("open", Value.num 1)]] : Frame).length ∧
      ∀ r ∈ f, ∃ q, lookupCol r "confidence_score" = some (Value.num q)) ∧
    ¬ SellModel.missingFeatures [[("open", Value.num 1)]] = []) :=
  ⟨by decide, rfl, rfl, ⟨"buy_high", by decide, by decide⟩,
   c9_missing_features_tolerated testModel [[("open", Value.num 1)]]
     (by decide) rfl rfl ⟨"buy_high", by decide, by decide⟩⟩

/-- C10: whenever startup fails — the .env file is absent; MONGO_CONN_STR,
MONGO_DB_NAME or SELL_MODEL_FILE is unset or empty; the model file does not
exist; or the MongoDB connection block (client, collections, unique index)
raises — the orchestrator returns normally with the world entirely
unchanged (no write to any collection) and a single startup error log line
that does not depend on the database contents (no read of active trades
influences the outcome). -/
theorem c10_startup_failure_no_effect (env : Orchestrator.Env)
    (m : SellModel.Model) (now : Int) (w w2 : Orchestrator.World)
    (h : Orchestrator.startupFails env) :
    Orchestrator.orchestrator_stage2_sell env m now w =
      (w, [Orchestrator.startupMsg env]) ∧
    (Orchestrator.orchestrator_stage2_sell env m now w).2 =
      (Orchestrator.orchestrator_stage2_sell env m now w2).2 := by
  have h1 := Orchestrator.orchestrator_startup m now h w
  have h2 := Orchestrator.orchestrator_startup m now h w2
  exact ⟨h1, by rw [h1, h2]⟩

/-- Witness for C10: a failing connection block leaves two different worlds
untouched with the same log. -/
theorem c10_witness :
    Orchestrator.startupFails envBad ∧
    (Orchestrator.orchestrator_stage2_sell envBad testModel 5
        ⟨[tradeA], [snapA], []⟩ =
      (⟨[tradeA], [snapA], []⟩, [Orchestrator.startupMsg envBad]) ∧
    (Orchestrator.orchestrator_stage2_sell envBad testModel 5
        ⟨[tradeA], [snapA], []⟩).2 =
      (Orchestrator.orchestrator_stage2_sell envBad testModel 5
        ⟨[], [], [sdoc1]⟩).2) :=
  ⟨by decide,
   c10_startup_failure_no_effect envBad testModel 5 ⟨[tradeA], [snapA], []⟩
     ⟨[], [], [sdoc1]⟩ (by decide)⟩
